import Mathlib

/-!
# Tiinusen/cli : configuration binding, flag naming and service commands

A shallow embedding of `parser.go` (flag names, the two scans of the configuration
record, `postConfig`) and of the lifecycle commands of `service_linux.go` and
`service_windows.go`.  What a command asks of the operating system is kept as a list of
steps with the answers; the answers come from a record of functions of the steps so far.

Go strings are modelled as lists of characters (`Str`).  The source indexes
strings by byte; on ASCII text a byte is a character, and every statement below
about `dash` and `env` is made for ASCII text.  Functions of the Go standard
library that the source calls (`strings.Split`, `strings.ReplaceAll`,
`strings.TrimSpace`, `unicode.IsUpper`, `time.Parse`, ...) are modelled in the
namespaces `strings`, `unicode`, `regexp`, `time`, `reflect` from their
documented behaviour, restricted to the arguments the source passes.
-/

namespace GoCli

/-- A Go string, as the list of its characters. -/
abbrev Str := List Char

/-- The rune 0, the zero value of the rune variables of `dash`. -/
def rune0 : Char := Char.ofNat 0

namespace unicode

/-- Go `unicode.IsUpper` on ASCII: the letters A to Z. -/
def IsUpper (c : Char) : Bool := decide (65 ≤ c.toNat) && decide (c.toNat ≤ 90)

/-- Go `unicode.IsLower` on ASCII: the letters a to z. -/
def IsLower (c : Char) : Bool := decide (97 ≤ c.toNat) && decide (c.toNat ≤ 122)

/-- Go `unicode.IsDigit` on ASCII: the digits 0 to 9 (the class `\d` of `regexp`). -/
def IsDigit (c : Char) : Bool := decide (48 ≤ c.toNat) && decide (c.toNat ≤ 57)

/-- Go `unicode.ToLower` on ASCII: A..Z go to a..z, every other character stays. -/
def ToLower (c : Char) : Char := if IsUpper c then Char.ofNat (c.toNat + 32) else c

/-- Go `unicode.ToUpper` on ASCII: a..z go to A..Z, every other character stays. -/
def ToUpper (c : Char) : Char := if IsLower c then Char.ofNat (c.toNat - 32) else c

/-- Go `unicode.IsSpace`: the Unicode White_Space code points. -/
def IsSpace (c : Char) : Bool :=
  decide (c.toNat ∈ [9, 10, 11, 12, 13, 32, 0x85, 0xA0, 0x1680, 0x2028, 0x2029, 0x202F, 0x205F,
    0x3000]) || (decide (0x2000 ≤ c.toNat) && decide (c.toNat ≤ 0x200A))

end unicode

namespace strings

/-- Go `strings.Split(s, sep)` for a separator of one character: the pieces of `s`
between the occurrences of `sep`, in order; never the empty list. -/
def Split : Str → Char → List Str
  | [], _ => [[]]
  | c :: cs, sep =>
    if c = sep then [] :: Split cs sep
    else match Split cs sep with
      | [] => [[c]]
      | p :: ps => (c :: p) :: ps

/-- Scan of `strings.ReplaceAll`: `skip` counts the characters of a matched
occurrence of `old` that are still to be passed over. -/
def replaceFrom (old new : Str) : Nat → Str → Str
  | _, [] => []
  | skip + 1, _ :: cs => replaceFrom old new skip cs
  | 0, c :: cs =>
    if old <+: (c :: cs) then new ++ replaceFrom old new (old.length - 1) cs
    else c :: replaceFrom old new 0 cs

/-- Go `strings.ReplaceAll(s, old, new)` for a non-empty `old`: the non-overlapping
occurrences of `old`, found from the left, are replaced by `new`. -/
def ReplaceAll (s old new : Str) : Str := replaceFrom old new 0 s

/-- Go `strings.ToUpper`. -/
def ToUpper (s : Str) : Str := s.map unicode.ToUpper

/-- Go `strings.ToLower`. -/
def ToLower (s : Str) : Str := s.map unicode.ToLower

/-- Go `strings.TrimSpace`: leading and trailing white space removed. -/
def TrimSpace (s : Str) : Str := (s.dropWhile unicode.IsSpace).rdropWhile unicode.IsSpace

/-- Go `strings.Trim(s, cutset)`: leading and trailing characters of `cutset` removed. -/
def Trim (s cutset : Str) : Str :=
  (s.dropWhile (fun c => decide (c ∈ cutset))).rdropWhile (fun c => decide (c ∈ cutset))

/-- Go `strings.Join(elems, sep)`. -/
def Join (elems : List Str) (sep : Str) : Str := sep.intercalate elems

end strings

/-! ## `dash` and `env` (parser.go, lines 276-308) -/

/-- The two `case` conditions of the `switch` in `dash` (lines 293-295), which share
one body. -/
def hyphenCond (prevChar char nextChar : Char) : Bool :=
  (unicode.IsUpper char && !unicode.IsUpper nextChar && nextChar != rune0)
    || (prevChar != rune0 && !unicode.IsUpper prevChar && unicode.IsUpper char)

/-- The inner loop of `dash` over one segment `name`: the list is `name[i:]`,
`prevChar` is `name[i-1]` (rune 0 when `i = 0`) and `dashedName` the text built so far. -/
def dashSegment : Char → Str → Str → Str
  | _, [], dashedName => dashedName
  | prevChar, char :: rest, dashedName =>
    let nextChar := rest.headD rune0
    let dashedName :=
      if hyphenCond prevChar char nextChar then
        if dashedName.length > 0 then dashedName ++ ['-'] else dashedName
      else dashedName
    dashSegment char rest (dashedName ++ [unicode.ToLower char])

/-- The outer loop of `dash` over the segments `parts`. -/
def dashParts : List Str → Str → Str
  | [], dashedName => dashedName
  | name :: parts, dashedName =>
    let dashedName := if dashedName.length > 0 then dashedName ++ ['-'] else dashedName
    dashParts parts (dashSegment rune0 name dashedName)

/-- The function `dash` of parser.go. -/
def dash (name : Str) : Str :=
  strings.ReplaceAll (dashParts (strings.Split name '-') []) ['-', '-'] ['-']

/-- The function `env` of parser.go. -/
def env (name : Str) : Str :=
  strings.ToUpper (strings.ReplaceAll (dash name) ['-'] ['_'])

/-- The function `aliases` of parser.go, on the result of `Tag.Lookup("flag")`
(`none` when the tag has no such key). -/
def aliases : Option Str → List Str
  | none => []
  | some val => (strings.Split val ',').map (fun v => strings.Trim v [' ', '\t'])

/-- The function `envVars` of parser.go. -/
def envVars (keyUnderscored optionalEnv : Str) : List Str :=
  [strings.ToUpper keyUnderscored] ++
    (if optionalEnv.length > 0 then
      (strings.Split optionalEnv ',').map (fun v => strings.ToUpper (strings.Trim v [' ', '\t']))
    else [])

/-! ## Timestamps (parser.go, lines 204-219 and 265-274) -/

namespace regexp

/-- One element of the regular expressions of parser.go: the class `\d` or a literal. -/
inductive Atom where
  | digit
  | lit (c : Char)
  deriving DecidableEq, Repr

/-- Go `MatchString` for an expression `^ a1 ... an $` of such elements: the whole
text is matched, one character per element. -/
def MatchString : List Atom → Str → Bool
  | [], [] => true
  | Atom.digit :: re, c :: s => unicode.IsDigit c && MatchString re s
  | Atom.lit a :: re, c :: s => (c == a) && MatchString re s
  | _, _ => false

end regexp

namespace time

/-- A value of Go `time.Time` in UTC, by its calendar fields. -/
structure Time where
  year : Nat
  month : Nat
  day : Nat
  hour : Nat
  min : Nat
  sec : Nat
  nsec : Nat
  deriving DecidableEq, Repr

/-- The zero value `time.Time{}`: January 1 of year 1, 00:00:00 UTC. -/
def zero : Time := ⟨1, 1, 1, 0, 0, 0, 0⟩

/-- The elements of the layouts of parser.go, as `nextStdChunk` cuts them. -/
inductive Chunk where
  | lit (c : Char)
  | stdLongYear
  | stdZeroMonth
  | stdZeroDay
  | stdHour
  | stdZeroMinute
  | stdZeroSecond
  deriving DecidableEq, Repr

/-- Go `isLeap`: the Gregorian leap-year rule. -/
def isLeap (year : Nat) : Bool := year % 4 == 0 && (year % 100 != 0 || year % 400 == 0)

/-- Go `daysIn`: the number of days of the month in the year. -/
def daysIn (month year : Nat) : Nat :=
  if month = 2 then (if isLeap year then 29 else 28)
  else if month = 4 ∨ month = 6 ∨ month = 9 ∨ month = 11 then 30 else 31

/-- The value of a decimal digit character. -/
def digitVal (c : Char) : Nat := c.toNat - 48

/-- Go `getnum`: one or two leading digits, exactly two when `fixed`. -/
def getnum (s : Str) (fixed : Bool) : Option (Nat × Str) :=
  match s with
  | [] => none
  | a :: rest =>
    if !unicode.IsDigit a then none
    else match rest with
      | [] => if fixed then none else some (digitVal a, [])
      | b :: rest2 =>
        if unicode.IsDigit b then some (digitVal a * 10 + digitVal b, rest2)
        else if fixed then none else some (digitVal a, rest)

/-- The fields collected by `Parse`; `month` and `day` are `none` until seen. -/
structure Fields where
  year : Nat := 0
  month : Option Nat := none
  day : Option Nat := none
  hour : Nat := 0
  min : Nat := 0
  sec : Nat := 0
  nsec : Nat := 0

/-- The value of a run of decimal digits. -/
def atoi (ds : Str) : Nat := ds.foldl (fun n c => n * 10 + digitVal c) 0

/-- The loop of Go `time.Parse` over the layout; `none` stands for a returned error.
After the seconds a fraction (`.` or `,` and digits) that the layout does not name is read
as nanoseconds, as Go does; the expressions of parser.go let no such text through. -/
def parseChunks : List Chunk → Str → Fields → Option Fields
  | [], value, p => if value.length != 0 then none else some p
  | Chunk.lit c :: layout, value, p =>
    if c = ' ' then
      match value with
      | [] => parseChunks layout [] p
      | v :: vs => if v != ' ' then none else parseChunks layout ((v :: vs).dropWhile (· == ' ')) p
    else
      match value with
      | [] => none
      | v :: vs => if v != c then none else parseChunks layout vs p
  | Chunk.stdLongYear :: layout, value, p =>
    match value with
    | a :: b :: c :: d :: vs =>
      if unicode.IsDigit a && unicode.IsDigit b && unicode.IsDigit c && unicode.IsDigit d then
        parseChunks layout vs { p with year := atoi [a, b, c, d] }
      else none
    | _ => none
  | Chunk.stdZeroMonth :: layout, value, p =>
    match getnum value true with
    | none => none
    | some (month, vs) =>
      if month ≤ 0 ∨ 12 < month then none
      else parseChunks layout vs { p with month := some month }
  | Chunk.stdZeroDay :: layout, value, p =>
    match getnum value true with
    | none => none
    | some (day, vs) => parseChunks layout vs { p with day := some day }
  | Chunk.stdHour :: layout, value, p =>
    match getnum value false with
    | none => none
    | some (hour, vs) => if 24 ≤ hour then none else parseChunks layout vs { p with hour := hour }
  | Chunk.stdZeroMinute :: layout, value, p =>
    match getnum value true with
    | none => none
    | some (min, vs) => if 60 ≤ min then none else parseChunks layout vs { p with min := min }
  | Chunk.stdZeroSecond :: layout, value, p =>
    match getnum value true with
    | none => none
    | some (sec, vs) =>
      if 60 ≤ sec then none
      else
        match vs with
        | sep :: d :: ws =>
          if (sep = '.' ∨ sep = ',') ∧ unicode.IsDigit d = true then
            let ds := (d :: ws).takeWhile unicode.IsDigit
            let nsec := atoi (ds.take 9) * 10 ^ (9 - (ds.take 9).length)
            parseChunks layout ((d :: ws).dropWhile unicode.IsDigit)
              { p with sec := sec, nsec := nsec }
          else parseChunks layout vs { p with sec := sec }
        | _ => parseChunks layout vs { p with sec := sec }

/-- Go `time.Parse(layout, value)` for a layout made of the elements above; `none`
stands for a returned error (Go then returns `Time{}` beside it). -/
def Parse (layout : List Chunk) (value : Str) : Option Time :=
  match parseChunks layout value {} with
  | none => none
  | some p =>
    let month := p.month.getD 1
    let day := p.day.getD 1
    if day < 1 ∨ day > daysIn month p.year then none
    else some ⟨p.year, month, day, p.hour, p.min, p.sec, p.nsec⟩

end time

/-- The expression `^\d{4}-\d{2}-\d{2} \d{2}:\d{2}:\d{2}$`. -/
def dateTimeRegexp : List regexp.Atom :=
  [.digit, .digit, .digit, .digit, .lit '-', .digit, .digit, .lit '-', .digit, .digit, .lit ' ',
   .digit, .digit, .lit ':', .digit, .digit, .lit ':', .digit, .digit]

/-- The layout "2006-01-02 15:04:05". -/
def dateTimeFormat : List time.Chunk :=
  [.stdLongYear, .lit '-', .stdZeroMonth, .lit '-', .stdZeroDay, .lit ' ',
   .stdHour, .lit ':', .stdZeroMinute, .lit ':', .stdZeroSecond]

/-- The expression `^\d{4}-\d{2}-\d{2}$`. -/
def dateRegexp : List regexp.Atom :=
  [.digit, .digit, .digit, .digit, .lit '-', .digit, .digit, .lit '-', .digit, .digit]

/-- The layout "2006-01-02". -/
def dateFormat : List time.Chunk :=
  [.stdLongYear, .lit '-', .stdZeroMonth, .lit '-', .stdZeroDay]

/-- The expression `^\d{2}:\d{2}:\d{2}$`. -/
def timeRegexp : List regexp.Atom :=
  [.digit, .digit, .lit ':', .digit, .digit, .lit ':', .digit, .digit]

/-- The function `parseTime` of parser.go: the error of `time.Parse` is dropped, so
a value that does not parse yields `Time{}`. -/
def parseTime (layout : List time.Chunk) (timeString : Str) : time.Time :=
  match time.Parse layout timeString with
  | some t => t
  | none => time.zero

/-- What the `time.Time` case of `postConfigRecursiveScan` does with the field:
`os.Exit(status)`, or `valueOfField.Set(t)`. -/
inductive Bound where
  | exit (status : Nat)
  | set (t : time.Time)
  deriving DecidableEq, Repr

/-- The `switch` of the `time.Time` case (parser.go, lines 205 and 210-219) on the raw
flag text `raw`; `today` is `time.Now().Format(dateFormat)` as the clock gives it. -/
def bindTime (today raw : Str) : Bound :=
  let v := strings.TrimSpace raw
  if regexp.MatchString dateTimeRegexp v then Bound.set (parseTime dateTimeFormat v)
  else if regexp.MatchString dateRegexp v then Bound.set (parseTime dateFormat v)
  else if regexp.MatchString timeRegexp v then
    Bound.set (parseTime dateTimeFormat (today ++ [' '] ++ v))
  else Bound.exit 1

/-! ## The configuration record and its two scans (parser.go, lines 38-138 and 184-263) -/

namespace time

/-- Go `fmtFrac`: the `prec` low decimal digits of `v` put before `w` as a fraction,
trailing zeros and an all-zero fraction left out; also returns `v / 10^prec`. -/
def fmtFrac : Nat → Nat → Bool → Str → Str × Nat
  | 0, v, print, w => (if print then '.' :: w else w, v)
  | prec + 1, v, print, w =>
    let digit := v % 10
    let print := print || digit != 0
    fmtFrac prec (v / 10) print (if print then Char.ofNat (48 + digit) :: w else w)

/-- Go `fmtInt`: the decimal digits of `v`. -/
def fmtInt (v : Nat) : Str := Nat.toDigits 10 v

/-- Go `time.Duration.String` on a duration of `d` nanoseconds. -/
def Duration.String (d : Int) : Str :=
  let u := d.natAbs
  let body : Str :=
    if u < 1000000000 then
      if u = 0 then ['0', 's']
      else if u < 1000 then
        let r := fmtFrac 0 u false ['n', 's']
        fmtInt r.2 ++ r.1
      else if u < 1000000 then
        let r := fmtFrac 3 u false ['µ', 's']
        fmtInt r.2 ++ r.1
      else
        let r := fmtFrac 6 u false ['m', 's']
        fmtInt r.2 ++ r.1
    else
      let r := fmtFrac 9 u false ['s']
      let w := fmtInt (r.2 % 60) ++ r.1
      let u := r.2 / 60
      if u > 0 then
        let w := fmtInt (u % 60) ++ 'm' :: w
        let u := u / 60
        if u > 0 then fmtInt u ++ 'h' :: w else w
      else w
  if d < 0 then '-' :: body else body

end time

/-- The struct tag of a field: `Tag.Lookup("flag")`, `Tag.Get("env")`, `Tag.Get("help")`. -/
structure Tag where
  flag : Option Str := none
  env : Str := []
  help : Str := []
  deriving DecidableEq, Repr

mutual
/-- The value of a field of the configuration record, by the cases of the `switch`
on its kind: `duration` is a field of kind `Int64` whose type is `time.Duration`, `int64`
a field of kind `Int64` of any other type, `slice` a field of type `[]string`, `time` a
struct field of type `time.Time`, `struct` any other struct field; `other` stands for
every kind that has no case in the `switch` (a pointer, a float, a map, ...). -/
inductive Value where
  | int (v : Int)
  | string (v : Str)
  | bool (v : Bool)
  | duration (v : Int)
  | int64 (v : Int)
  | time (v : time.Time)
  | slice (v : List Str)
  | struct (fields : List Field)
  | other
/-- A field of a struct: its name, its tag and its value. -/
inductive Field where
  | mk (name : Str) (tag : Tag) (value : Value)
end

/-- The `Value` of a flag declaration, by the type of the flag. -/
inductive FlagValue where
  | int (v : Int)
  | string (v : Str)
  | bool (v : Bool)
  | duration (v : Int)
  | stringSlice (v : Option (List Str))
  deriving DecidableEq, Repr

/-- A flag declaration (`cli.IntFlag`, `cli.StringFlag`, ... of urfave/cli). -/
structure Flag where
  Name : Str
  EnvVars : List Str
  Value : FlagValue
  Aliases : List Str
  Usage : Str
  deriving DecidableEq, Repr

/-- The `Value` of a `mapslice.MapItem`. -/
inductive ItemValue where
  | int (v : Int)
  | string (v : Str)
  | bool (v : Bool)
  | strings (v : List Str)
  deriving DecidableEq, Repr

/-- One entry of the flat configuration, a `mapslice.MapItem`. -/
structure MapItem where
  Key : Str
  Value : ItemValue
  deriving DecidableEq, Repr

/-- The part of `Builder` that `preConfigRecursiveScan` writes: `b.app.Flags` and
`b.configStructure`. -/
structure Builder where
  Flags : List Flag := []
  configStructure : List MapItem := []
  deriving DecidableEq, Repr

/-- Go `reflect.Value.String` on a value that is no string: the text
`<T Value>`, here for `T = time.Time`. -/
def reflect.timeValueString : Str := "<time.Time Value>".data

/-- Lines 46-54 and 192-199: the name of a field before `dash`, and the aliases
left for the flag declaration. -/
def rawFlagName (pfx name : Str) (tag : Tag) : Str × List Str :=
  let als := aliases tag.flag
  let r : Str × List Str :=
    match als with
    | [] => (name, als)
    | a :: rest => (a, rest)
  (if pfx.length > 0 then pfx ++ ['-'] ++ r.1 else r.1, r.2)

/-- Whether a field name is exported: its first character is an uppercase letter (names are
ASCII text here, as all text is).  On the value of a field that is not exported,
`reflect.Value.Interface` and the setters `Set`, `SetInt`, `SetString`, `SetBool` panic; the
getters `Int`, `String`, `Bool` do not. -/
def IsExported (name : Str) : Bool :=
  match name with
  | [] => false
  | c :: _ => unicode.IsUpper c

/-- The exit status of a Go process that ends in a panic; nothing in the program recovers
from one. -/
def panicStatus : Nat := 2

mutual
/-- The body of the loop of `preConfigRecursiveScan` for one field: the builder as the
field leaves it, and `some panicStatus` when the body panics (`valueOfField.Interface()`,
lines 59 and 112, on a field that is not exported), `none` when it runs to its end. -/
def preConfigField (b : Builder) : Field → Str → Builder × Option Nat
  | Field.mk name tag value, pfx =>
    let r := rawFlagName pfx name tag
    let envName := env r.1
    let flagName := dash r.1
    let aliases := r.2
    match value with
    | Value.time _ =>
      if IsExported name then
        ({ Flags := b.Flags ++ [⟨flagName, envVars envName tag.env,
            FlagValue.string reflect.timeValueString, aliases, tag.help⟩],
           configStructure := b.configStructure ++
            [⟨flagName, ItemValue.string reflect.timeValueString⟩] }, none)
      else (b, some panicStatus)
    | Value.struct fields =>
      if IsExported name then preConfigRecursiveScan b fields flagName
      else (b, some panicStatus)
    | Value.int v =>
      ({ Flags := b.Flags ++ [⟨flagName, envVars envName tag.env, FlagValue.int v, aliases,
          tag.help⟩],
         configStructure := b.configStructure ++ [⟨flagName, ItemValue.int v⟩] }, none)
    | Value.string v =>
      ({ Flags := b.Flags ++ [⟨flagName, envVars envName tag.env, FlagValue.string v, aliases,
          tag.help⟩],
         configStructure := b.configStructure ++ [⟨flagName, ItemValue.string v⟩] }, none)
    | Value.bool v =>
      ({ Flags := b.Flags ++ [⟨flagName, envVars envName tag.env, FlagValue.bool v, aliases,
          tag.help⟩],
         configStructure := b.configStructure ++ [⟨flagName, ItemValue.bool v⟩] }, none)
    | Value.duration v =>
      if IsExported name then
        ({ Flags := b.Flags ++ [⟨flagName, envVars envName tag.env, FlagValue.duration v,
            aliases, tag.help⟩],
           configStructure := b.configStructure ++
            [⟨flagName, ItemValue.string (time.Duration.String v)⟩] }, none)
      else (b, some panicStatus)
    | Value.int64 _ => if IsExported name then (b, none) else (b, some panicStatus)
    | Value.slice _ =>
      ({ Flags := b.Flags ++ [⟨flagName, envVars envName tag.env, FlagValue.stringSlice none,
          aliases, tag.help⟩],
         configStructure := b.configStructure ++ [⟨flagName, ItemValue.strings []⟩] }, none)
    | Value.other => (b, none)
/-- The function `preConfigRecursiveScan` of parser.go on the fields of a struct: the
builder as the loop leaves it, and `some panicStatus` when a field panics, which ends the
loop there. -/
def preConfigRecursiveScan (b : Builder) : List Field → Str → Builder × Option Nat
  | [], _ => (b, none)
  | f :: fs, pfx =>
    match preConfigField b f pfx with
    | (b1, none) => preConfigRecursiveScan b1 fs pfx
    | (b1, some status) => (b1, some status)
end

/-- The resolved flag values that `postConfigRecursiveScan` reads from the
`cli.Context` of urfave/cli, by flag name. -/
structure Context where
  String : Str → Str
  Duration : Str → ℤ
  StringSlice : Str → List Str
  Int : Str → ℤ
  Bool : Str → Bool

/-- The state that `postConfigRecursiveScan` threads: `b.runner.flatConfig`, and the
number of Timestamp fields bound so far (the index of the next clock reading). -/
structure PostState where
  flatConfig : List MapItem := []
  timeFields : Nat := 0
  deriving DecidableEq, Repr

/-- The two loops of the `reflect.Slice` case (parser.go, lines 250-255) over the
tokens `c.StringSlice(flagName)`. -/
def bindStringList (items : List Str) : List Str :=
  items.foldl
    (fun values item =>
      (strings.Split item ',').foldl (fun values value => values ++ [strings.TrimSpace value])
        values)
    []

mutual
/-- The body of the loop of `postConfigRecursiveScan` for one field: the new state
and the field as bound, or `Except.error status` when the process ends there with that
exit status: `os.Exit(status)`, or `panicStatus` for the panic of `Interface` (lines 203
and 242) or of a setter (lines 224, 230, 236 and 256) on a field that is not exported.
`clock k` is `time.Now().Format(dateFormat)` as read while the Timestamp field number `k`
is bound. -/
def postConfigField (c : Context) (clock : Nat → Str) (st : PostState) :
    Field → Str → Except Nat (PostState × Field)
  | Field.mk name tag value, pfx =>
    let flagName := dash (rawFlagName pfx name tag).1
    match value with
    | Value.time _ =>
      if IsExported name then
        let st1 : PostState :=
          { flatConfig := st.flatConfig ++ [⟨flagName, ItemValue.string (c.String flagName)⟩],
            timeFields := st.timeFields + 1 }
        match bindTime (clock st.timeFields) (c.String flagName) with
        | Bound.set t => Except.ok (st1, Field.mk name tag (Value.time t))
        | Bound.exit status => Except.error status
      else Except.error panicStatus
    | Value.struct fields =>
      if IsExported name then
        match postConfigRecursiveScan c clock st fields flagName with
        | Except.ok (st1, fields1) => Except.ok (st1, Field.mk name tag (Value.struct fields1))
        | Except.error status => Except.error status
      else Except.error panicStatus
    | Value.int _ =>
      if IsExported name then
        Except.ok ({ st with flatConfig := st.flatConfig ++
            [⟨flagName, ItemValue.int (c.Int flagName)⟩] },
          Field.mk name tag (Value.int (c.Int flagName)))
      else Except.error panicStatus
    | Value.string _ =>
      if IsExported name then
        Except.ok ({ st with flatConfig := st.flatConfig ++
            [⟨flagName, ItemValue.string (c.String flagName)⟩] },
          Field.mk name tag (Value.string (c.String flagName)))
      else Except.error panicStatus
    | Value.bool _ =>
      if IsExported name then
        Except.ok ({ st with flatConfig := st.flatConfig ++
            [⟨flagName, ItemValue.bool (c.Bool flagName)⟩] },
          Field.mk name tag (Value.bool (c.Bool flagName)))
      else Except.error panicStatus
    | Value.duration _ =>
      if IsExported name then
        Except.ok ({ st with flatConfig := st.flatConfig ++
            [⟨flagName, ItemValue.string (time.Duration.String (c.Duration flagName))⟩] },
          Field.mk name tag (Value.duration (c.Duration flagName)))
      else Except.error panicStatus
    | Value.int64 v =>
      if IsExported name then Except.ok (st, Field.mk name tag (Value.int64 v))
      else Except.error panicStatus
    | Value.slice _ =>
      if IsExported name then
        let values := bindStringList (c.StringSlice flagName)
        Except.ok ({ st with flatConfig := st.flatConfig ++
            [⟨flagName, ItemValue.string (strings.Join values [','])⟩] },
          Field.mk name tag (Value.slice values))
      else Except.error panicStatus
    | Value.other => Except.ok (st, Field.mk name tag Value.other)
/-- The function `postConfigRecursiveScan` of parser.go on the fields of a struct; the
first field that ends the process ends the loop. -/
def postConfigRecursiveScan (c : Context) (clock : Nat → Str) (st : PostState) :
    List Field → Str → Except Nat (PostState × List Field)
  | [], _ => Except.ok (st, [])
  | f :: fs, pfx =>
    match postConfigField c clock st f pfx with
    | Except.error status => Except.error status
    | Except.ok (st1, f1) =>
      match postConfigRecursiveScan c clock st1 fs pfx with
      | Except.error status => Except.error status
      | Except.ok (st2, fs1) => Except.ok (st2, f1 :: fs1)
end

open unicode

/-! ## Definitions used by the statements and proofs -/

/-- An ASCII letter or digit. -/
def isAlnum (c : Char) : Bool := IsUpper c || IsLower c || IsDigit c

/-- What `dashSegment` appends to the text built so far; `first` says that this text is empty. -/
def segOut : Bool → Char → Str → Str
  | _, _, [] => []
  | first, prevChar, char :: rest =>
    (if hyphenCond prevChar char (rest.headD rune0) && !first then ['-'] else [])
      ++ ToLower char :: segOut false char rest

/-- Two adjacent hyphens somewhere in the text. -/
def hasDoubleHyphen : Str → Bool
  | [] => false
  | a :: rest =>
    match rest with
    | [] => false
    | b :: _ => (a == '-' && b == '-') || hasDoubleHyphen rest

/-- The pieces put together again with the separator between them. -/
def joinParts (sep : Char) : List Str → Str
  | [] => []
  | p :: ps => p ++ ps.flatMap (fun q => sep :: q)

/-- The inverse of `env` named by the round trip: lower-case, underscores to hyphens. -/
def flagOfEnv (e : Str) : Str := strings.ReplaceAll (strings.ToLower e) ['_'] ['-']

/-- The hyphen rule as C6 words it: position `i` is not the first, `s[i]` is an uppercase
letter, and a lowercase letter follows it or precedes it. -/
def hyphenBeforeClaimed (s : Str) (i : Nat) : Bool :=
  decide (i ≠ 0) && IsUpper (s.getD i rune0) &&
    ((decide (i + 1 < s.length) && IsLower (s.getD (i + 1) rune0))
      || IsLower (s.getD (i - 1) rune0))

/-- The hyphen rule with "lowercase letter" widened to "character that is no uppercase
letter": position `i` is not the first, `s[i]` is an uppercase letter, and a character
that is no uppercase letter follows it or precedes it. -/
def hyphenBefore (s : Str) (i : Nat) : Bool :=
  decide (i ≠ 0) && IsUpper (s.getD i rune0) &&
    ((decide (i + 1 < s.length) && !IsUpper (s.getD (i + 1) rune0))
      || !IsUpper (s.getD (i - 1) rune0))

/-- The text `s` lower-cased, with a hyphen put before each position that the rule names. -/
def insertHyphens (rule : Str → Nat → Bool) (s : Str) : Str :=
  (List.range s.length).flatMap
    (fun i => (if rule s i then ['-'] else []) ++ [ToLower (s.getD i rune0)])

/-- The decimal digit character of `n mod 10`. -/
def digit (n : Nat) : Char := Char.ofNat (48 + n % 10)

/-- Two decimal digits, zero padded (the form MM, DD, HH, SS). -/
def pad2 (n : Nat) : Str := [digit (n / 10), digit n]

/-- Four decimal digits, zero padded (the form YYYY). -/
def pad4 (n : Nat) : Str := [digit (n / 1000), digit (n / 100), digit (n / 10), digit n]

/-- The text YYYY-MM-DD of a date. -/
def dateText (y m d : Nat) : Str := pad4 y ++ '-' :: pad2 m ++ '-' :: pad2 d

/-- The text HH:MM:SS of a time of day. -/
def clockText (h mi s : Nat) : Str := pad2 h ++ ':' :: pad2 mi ++ ':' :: pad2 s

/-- A calendar date that the form YYYY-MM-DD can write. -/
@[reducible] def validDate (y m d : Nat) : Prop :=
  y ≤ 9999 ∧ 1 ≤ m ∧ m ≤ 12 ∧ 1 ≤ d ∧ d ≤ time.daysIn m y

/-- A time of day. -/
@[reducible] def validClock (h mi s : Nat) : Prop := h < 24 ∧ mi < 60 ∧ s < 60

mutual
/-- The flat names of one field in depth-first order: a scalar field gives its flag name, a
nested record gives the names of its fields under its own flag name as the joined name, and
nothing for itself. -/
def depthFirstFieldKeys : Field → Str → List Str
  | Field.mk name tag (Value.struct fields), pfx =>
    depthFirstKeys fields (dash (rawFlagName pfx name tag).1)
  | Field.mk _ _ Value.other, _ => []
  | Field.mk _ _ (Value.int64 _), _ => []
  | Field.mk name tag (Value.int _), pfx => [dash (rawFlagName pfx name tag).1]
  | Field.mk name tag (Value.string _), pfx => [dash (rawFlagName pfx name tag).1]
  | Field.mk name tag (Value.bool _), pfx => [dash (rawFlagName pfx name tag).1]
  | Field.mk name tag (Value.duration _), pfx => [dash (rawFlagName pfx name tag).1]
  | Field.mk name tag (Value.time _), pfx => [dash (rawFlagName pfx name tag).1]
  | Field.mk name tag (Value.slice _), pfx => [dash (rawFlagName pfx name tag).1]
/-- The flat names of the fields of a struct, in declaration order, depth first. -/
def depthFirstKeys : List Field → Str → List Str
  | [], _ => []
  | f :: fs, pfx => depthFirstFieldKeys f pfx ++ depthFirstKeys fs pfx
end

/-- A record with a nested record, a Timestamp and a StringList. -/
def sampleRecord : List Field :=
  [Field.mk "FooBar".data {} (Value.int 3),
   Field.mk "Server".data {}
     (Value.struct
       [Field.mk "Host".data {} (Value.string "x".data),
        Field.mk "Since".data {} (Value.time time.zero),
        Field.mk "Tags".data { flag := some "tag, t".data } (Value.slice ["q".data])]),
   Field.mk "Wait".data {} (Value.duration 5)]

/-- Flag values under which `sampleRecord` binds. -/
def sampleContext : Context :=
  { String := fun _ => "10:00:00".data
    Duration := fun _ => 90000000000
    StringSlice := fun _ => ["a, b".data, "c".data]
    Int := fun _ => 7
    Bool := fun _ => true }

/-- The name of a field. -/
def Field.name : Field → Str
  | Field.mk name _ _ => name

/-- The struct tag of a field. -/
def Field.tag : Field → Tag
  | Field.mk _ tag _ => tag

/-- The value of a field. -/
def Field.value : Field → Value
  | Field.mk _ _ value => value

/-- The kinds for which the scans declare a flag. -/
def Value.isScalar : Value → Bool
  | Value.struct _ => false
  | Value.other => false
  | Value.int64 _ => false
  | _ => true

/-- The flag name that the scans derive for the field reached by the names `path` from the
top of the record, none of the fields on the way carrying a `flag` tag: each level passes
its flag name down as the joined name (lines 47-56 and 73). -/
def pathFlagName (path : List Str) : Str :=
  path.foldl (fun pfx name => dash (rawFlagName pfx name {}).1) []

/-- A flag name in kebab case: not empty, made of lowercase letters, digits and hyphens,
no hyphen first or last, no two hyphens adjacent. -/
def Kebab (k : Str) : Prop :=
  k ≠ [] ∧ (∀ c ∈ k, IsLower c = true ∨ IsDigit c = true ∨ c = '-') ∧ k.head? ≠ some '-'
    ∧ k.getLast? ≠ some '-' ∧ hasDoubleHyphen k = false

mutual
/-- The paths (names from the top of the record) of the scalar fields under one field,
depth first. -/
def fieldScalarPaths : Field → List (List Str)
  | Field.mk name _ (Value.struct fields) => (scalarPaths fields).map (fun p => name :: p)
  | Field.mk _ _ Value.other => []
  | Field.mk _ _ (Value.int64 _) => []
  | Field.mk name _ (Value.int _) => [[name]]
  | Field.mk name _ (Value.string _) => [[name]]
  | Field.mk name _ (Value.bool _) => [[name]]
  | Field.mk name _ (Value.duration _) => [[name]]
  | Field.mk name _ (Value.time _) => [[name]]
  | Field.mk name _ (Value.slice _) => [[name]]
/-- The paths of the scalar fields of a record, in declaration order, depth first. -/
def scalarPaths : List Field → List (List Str)
  | [] => []
  | f :: fs => fieldScalarPaths f ++ scalarPaths fs
end

mutual
/-- The field, and every field below it, has a non-empty ASCII alphanumeric name and no
`flag` tag. -/
def plainField : Field → Bool
  | Field.mk name tag (Value.struct fields) =>
    !name.isEmpty && name.all isAlnum && tag.flag.isNone && plainFields fields
  | Field.mk name tag _ => !name.isEmpty && name.all isAlnum && tag.flag.isNone
/-- Every field of the record, at every depth, has a non-empty ASCII alphanumeric name and
no `flag` tag. -/
def plainFields : List Field → Bool
  | [] => true
  | f :: fs => plainField f && plainFields fs
end

/-- The field has a non-empty ASCII alphanumeric name and no `flag` tag. -/
def Field.plainName (f : Field) : Bool :=
  !f.name.isEmpty && f.name.all isAlnum && f.tag.flag.isNone

mutual
/-- The scalar fields under one field, depth first: each with the flag name that the scans
derive for it (lines 46-56, the flag name of a nested record being the joined name of its
fields) and with its value in the record. -/
def fieldScalars : Field → Str → List (Str × Value)
  | Field.mk name tag (Value.struct fields), pfx =>
    scalars fields (dash (rawFlagName pfx name tag).1)
  | Field.mk _ _ Value.other, _ => []
  | Field.mk _ _ (Value.int64 _), _ => []
  | Field.mk name tag (Value.int v), pfx => [(dash (rawFlagName pfx name tag).1, Value.int v)]
  | Field.mk name tag (Value.string v), pfx =>
    [(dash (rawFlagName pfx name tag).1, Value.string v)]
  | Field.mk name tag (Value.bool v), pfx => [(dash (rawFlagName pfx name tag).1, Value.bool v)]
  | Field.mk name tag (Value.duration v), pfx =>
    [(dash (rawFlagName pfx name tag).1, Value.duration v)]
  | Field.mk name tag (Value.time v), pfx => [(dash (rawFlagName pfx name tag).1, Value.time v)]
  | Field.mk name tag (Value.slice v), pfx => [(dash (rawFlagName pfx name tag).1, Value.slice v)]
/-- The scalar fields of a record, in declaration order, depth first, each with its flag
name and its value in the record. -/
def scalars : List Field → Str → List (Str × Value)
  | [], _ => []
  | f :: fs, pfx => fieldScalars f pfx ++ scalars fs pfx
end

/-- The default of the flag declaration and the value of the baseline entry that C10, as
amended, names for a field, by its type: the value of the field for an Integer, a String, a
Boolean and a Duration (in the baseline the Duration as its formatted text), no default and
the empty list for a StringList; nothing is said of a Timestamp. -/
def claimedDefault : Value → Option (FlagValue × ItemValue)
  | Value.int v => some (FlagValue.int v, ItemValue.int v)
  | Value.string v => some (FlagValue.string v, ItemValue.string v)
  | Value.bool v => some (FlagValue.bool v, ItemValue.bool v)
  | Value.duration v => some (FlagValue.duration v, ItemValue.string (time.Duration.String v))
  | Value.slice _ => some (FlagValue.stringSlice none, ItemValue.strings [])
  | _ => none

/-- The flag declaration `fl` is the one C10, as amended, names for the scalar field `o`:
it has the flag name of the field and the claimed default. -/
def declaresField (o : Str × Value) (fl : Flag) : Prop :=
  fl.Name = o.1 ∧ ∀ d, claimedDefault o.2 = some d → fl.Value = d.1

/-- The baseline entry `item` is the one C10, as amended, names for the scalar field `o`:
it has the flag name of the field as key and the claimed value. -/
def entersField (o : Str × Value) (item : MapItem) : Prop :=
  item.Key = o.1 ∧ ∀ d, claimedDefault o.2 = some d → item.Value = d.2

/-! ## `postConfig` (parser.go, lines 141-181) -/

/-- The method `Set` of `cli.Context` on a string flag: the flag then reads `value`. -/
def Context.Set (c : Context) (name value : Str) : Context :=
  { c with String := fun n => if n = name then value else c.String n }

/-- What `postConfig` does to the outside: a line on standard error, a line on standard
output, a file written. -/
inductive Effect where
  | Stderr (text : Str)
  | Println (text : Str)
  | WriteFile (filename data : Str) (perm : Nat)
  deriving DecidableEq, Repr

/-- The outside that `postConfig` reads: `Stat name` says that `os.Stat(name)` gives no
error; `InitInputSource c` is `altsrc.InitInputSourceWithContext(b.app.Flags,
altsrc.NewJSONSourceFromFlagFunc("config-file"))(c)`, the error or the context with the
values of the file applied; `MarshalIndent` is `json.MarshalIndent(_, "", "  ")`. -/
structure ConfigFiles where
  Stat : Str → Bool
  InitInputSource : Context → Except Str Context
  MarshalIndent : List MapItem → Str

/-- Lines 157-168 of `postConfig`: the effects, and `Except.error status` for
`os.Exit(status)` or else the context and the resolved `configFile`. -/
def loadConfigFile (w : ConfigFiles) (c : Context) : List Effect × Except Nat (Context × Str) :=
  let configFile := strings.TrimSpace (c.String "config-file".data)
  let configFile := if configFile.length = 0 then "config.json".data else configFile
  let c := c.Set "config-file".data configFile
  if w.Stat configFile then
    match w.InitInputSource c with
    | Except.error err =>
      if (c.String "config-file".data).length > 0 then
        ([Effect.Stderr ("Error: ".data ++ err ++ "\n".data)], Except.error 1)
      else ([], Except.ok (c, configFile))
    | Except.ok c1 => ([], Except.ok (c1, configFile))
  else ([], Except.ok (c, configFile))

/-- Lines 172-180 of `postConfig`: the effects, and `some status` for `os.Exit(status)`. -/
def shortCircuit (w : ConfigFiles) (c : Context) (flatConfig : List MapItem) (configFile : Str) :
    List Effect × Option Nat :=
  if c.Bool "show-config".data then
    ([Effect.Println (w.MarshalIndent flatConfig)], some 0)
  else if c.Bool "dump-config".data then
    ([Effect.WriteFile configFile (w.MarshalIndent flatConfig) 420], some 0)
  else ([], none)

/-- The function `postConfig` of parser.go on the configuration record `config` (`none`
for `b.config == nil`): the effects, and `Except.error status` when the process ends with
that exit status (`os.Exit(status)`, or a panic of the scan, whose report on standard error
is not among the effects) or else the bound record with the flat configuration. -/
def postConfig (w : ConfigFiles) (clock : Nat → Str) (config : Option (List Field))
    (c : Context) : List Effect × Except Nat (Option (List Field × List MapItem)) :=
  match config with
  | none => ([], Except.ok none)
  | some fields =>
    match loadConfigFile w c with
    | (effects, Except.error status) => (effects, Except.error status)
    | (effects, Except.ok (c1, configFile)) =>
      match postConfigRecursiveScan c1 clock {} fields [] with
      | Except.error status => (effects, Except.error status)
      | Except.ok (st, fields1) =>
        match shortCircuit w c1 st.flatConfig configFile with
        | (effects2, some status) => (effects ++ effects2, Except.error status)
        | (effects2, none) => (effects ++ effects2, Except.ok (some (fields1, st.flatConfig)))

/-- A working directory whose `config.json` exists and does not parse. -/
def brokenDefaultFile : ConfigFiles :=
  { Stat := fun name => name == "config.json".data
    InitInputSource := fun _ => Except.error "invalid character".data
    MarshalIndent := fun _ => "{}".data }

/-- A working directory without configuration file. -/
def noConfigFile : ConfigFiles :=
  { Stat := fun _ => false
    InitInputSource := fun c => Except.ok c
    MarshalIndent := fun _ => "{}".data }

/-- A context in which no flag is given. -/
def unsetContext : Context :=
  { String := fun _ => []
    Duration := fun _ => 0
    StringSlice := fun _ => []
    Int := fun _ => 0
    Bool := fun _ => false }

/-! ## The service commands on Linux (service_linux.go) -/

deriving instance DecidableEq for Except

/-- How a command callback ends: it returns an error, the process exits, or it panics. -/
inductive Result where
  | Error (msg : Str)
  | Exit (status : Nat)
  | Panic (msg : Str)
  deriving DecidableEq, Repr

namespace linux

/-- One step of a lifecycle command on the host, with what the host answered: the uid of
the caller, `os.Stat` (the owner uid and gid of the file, or the error), a run of
`systemctl` (`CombinedOutput`: the output and the error), the user and group lookups, a
file written or removed, a wait, a line printed or logged. -/
inductive Event where
  | Getuid (uid : Nat)
  | Stat (name : Str) (r : Except Str (Nat × Nat))
  | Systemctl (verb unit out : Str) (err : Option Str)
  | LookupId (id : Str) (r : Except Str Str)
  | LookupGroupId (id : Str) (r : Except Str Str)
  | WriteFile (name data : Str) (perm : Nat)
  | Remove (name : Str) (err : Option Str)
  | Sleep (ms : Nat)
  | Println (text : Str)
  deriving DecidableEq, Repr

/-- The steps of a command so far, oldest first. -/
abbrev Trace := List Event

/-- The host: what it answers to each request, given the steps so far. -/
structure Host where
  Getuid : Nat
  Stat : Trace → Str → Except Str (Nat × Nat)
  Systemctl : Trace → Str → Str → Str × Option Str
  LookupId : Trace → Str → Except Str Str
  LookupGroupId : Trace → Str → Except Str Str
  Remove : Trace → Str → Option Str

/-- The arguments of `Daemonize` and the path `exePath()` found when it ran. -/
structure Service where
  serviceName : Str
  serviceDescription : Str
  exepath : Str

/-- The variable `serviceNameDashedUnderscored` of `Daemonize`. -/
def serviceNameDashedUnderscored (sv : Service) : Str :=
  strings.ToLower (strings.ReplaceAll sv.serviceName [' '] ['-'])

/-- The variable `systemdServicePath` of `Daemonize` (`filepath.Join` on a unit name
without path separators). -/
def systemdServicePath (sv : Service) : Str :=
  "/etc/systemd/system/".data ++ serviceNameDashedUnderscored sv ++ ".service".data

/-- Go `filepath.Dir` on a clean absolute path: the path up to its last separator. -/
def filepathDir (p : Str) : Str :=
  match (p.reverse.dropWhile (fun c => c != '/')).drop 1 with
  | [] => ['/']
  | d => d.reverse

/-- The constant `systemdTemplate` executed on the template data. -/
def renderUnit (description binaryPath user group cwd : Str) : Str :=
  "\n[Unit]\nDescription=".data ++ description ++ "\nConditionPathExists=".data ++ binaryPath
    ++ "\n\n[Service]\nType=simple\n\nUser=".data ++ user ++ "\nGroup=".data ++ group
    ++ "\n\nWorkingDirectory=".data ++ cwd
    ++ "\n\nRestart=always\nRestartSec=3\n\nExecStart=".data ++ binaryPath
    ++ "\n\n[Install]\nWantedBy=multi-user.target\n".data

/-- One run of `exec.Command("systemctl", verb, unit).CombinedOutput()`. -/
def systemctl (h : Host) (t : Trace) (verb unit : Str) : Trace × Str × Option Str :=
  let r := h.Systemctl t verb unit
  (t ++ [Event.Systemctl verb unit r.1 r.2], r.1, r.2)

/-- The closure `existsService`. -/
def existsService (h : Host) (sv : Service) (t : Trace) : Trace × Bool :=
  let r := h.Stat t (systemdServicePath sv)
  (t ++ [Event.Stat (systemdServicePath sv) r], r.toBool)

/-- The closure `enableService`: the returned error, `none` for nil. -/
def enableService (h : Host) (sv : Service) (t : Trace) : Trace × Option Str :=
  let r := systemctl h t "enable".data (serviceNameDashedUnderscored sv)
  match r.2.2 with
  | some err => (r.1, some err)
  | none => if r.2.1.length = 0 then (r.1, some "already enabled".data) else (r.1, none)

/-- The closure `disableService`. -/
def disableService (h : Host) (sv : Service) (t : Trace) : Trace × Option Str :=
  let r := systemctl h t "disable".data (serviceNameDashedUnderscored sv)
  match r.2.2 with
  | some err => (r.1, some err)
  | none => if r.2.1.length = 0 then (r.1, some "already disabled".data) else (r.1, none)

/-- The closure `statusService`: the error, or `(enabled, running)`. -/
def statusService (h : Host) (sv : Service) (t : Trace) : Trace × Except Str (Bool × Bool) :=
  let r1 := systemctl h t "is-active".data (serviceNameDashedUnderscored sv)
  if r1.2.1.length = 0 then (r1.1, Except.error "no output from systemctl".data)
  else
    let running := decide (strings.TrimSpace r1.2.1 = "active".data)
    let r2 := systemctl h r1.1 "is-enabled".data (serviceNameDashedUnderscored sv)
    if r2.2.1.length = 0 then (r2.1, Except.error "no output from systemctl".data)
    else
      let enabled := decide (strings.TrimSpace r2.2.1 = "enabled".data)
      (r2.1, Except.ok (enabled, running))

/-- The closure `installService`: `none` for a nil error. -/
def installService (h : Host) (sv : Service) (t : Trace) : Trace × Option Result :=
  let info := h.Stat t sv.exepath
  let t := t ++ [Event.Stat sv.exepath info]
  match info with
  | Except.error err => (t, some (Result.Panic err))
  | Except.ok (uid, gid) =>
    let u := Nat.toDigits 10 uid
    let g := Nat.toDigits 10 gid
    let usr := h.LookupId t u
    let t := t ++ [Event.LookupId u usr]
    match usr with
    | Except.error err => (t, some (Result.Panic err))
    | Except.ok usrName =>
      let group := h.LookupGroupId t g
      let t := t ++ [Event.LookupGroupId g group]
      match group with
      | Except.error err => (t, some (Result.Panic err))
      | Except.ok groupName =>
        let bts := renderUnit (sv.serviceName ++ " - ".data ++ sv.serviceDescription) sv.exepath
          usrName groupName (filepathDir sv.exepath)
        (t ++ [Event.WriteFile (systemdServicePath sv) bts 436], none)

/-- The closure `removeService`. -/
def removeService (h : Host) (sv : Service) (t : Trace) : Trace × Option Str :=
  let r := h.Remove t (systemdServicePath sv)
  (t ++ [Event.Remove (systemdServicePath sv) r], r)

/-- The closure `stopService`. -/
def stopService (h : Host) (sv : Service) (t : Trace) : Trace × Option Str :=
  let r := systemctl h t "stop".data (serviceNameDashedUnderscored sv)
  match r.2.2 with
  | some err => (r.1, some err)
  | none => if r.2.1.length = 0 then (r.1, some "already stopped".data) else (r.1, none)

/-- The closure `startService`. -/
def startService (h : Host) (sv : Service) (t : Trace) : Trace × Option Str :=
  let s1 := statusService h sv t
  match s1.2 with
  | Except.error err => (s1.1, some err)
  | Except.ok (_, running) =>
    if running then (s1.1, some "already started".data)
    else
      let r := systemctl h s1.1 "start".data (serviceNameDashedUnderscored sv)
      match r.2.2 with
      | some err => (r.1 ++ [Event.Println "start cmd failed".data], some err)
      | none =>
        let s2 := statusService h sv (r.1 ++ [Event.Sleep 1000])
        match s2.2 with
        | Except.error err => (s2.1, some err)
        | Except.ok (_, running2) =>
          if !running2 then
            (s2.1, some
              "failed to start service (was not running one second after start-up)".data)
          else (s2.1, none)

/-- The text `service %s is not installed`. -/
def notInstalled (sv : Service) : Str :=
  "service ".data ++ serviceNameDashedUnderscored sv ++ " is not installed".data

/-- The callback of the command `install`. -/
def install (h : Host) (sv : Service) : Trace × Result :=
  let t : Trace := [Event.Getuid h.Getuid]
  if h.Getuid != 0 then
    (t, Result.Error "you need root priviledges to install this service".data)
  else
    let dir := h.Stat t "/etc/systemd/system".data
    let t := t ++ [Event.Stat "/etc/systemd/system".data dir]
    if !dir.toBool then (t, Result.Error "/etc/systemd/system folder missing".data)
    else
      let e := existsService h sv t
      let cleared : Trace × Option Str :=
        if e.2 then
          removeService h sv (stopService h sv (disableService h sv e.1).1).1
        else (e.1, none)
      match cleared.2 with
      | some err => (cleared.1, Result.Error err)
      | none =>
        let i := installService h sv cleared.1
        match i.2 with
        | some r => (i.1, r)
        | none =>
          let en := enableService h sv i.1
          match en.2 with
          | some err => (en.1, Result.Error err)
          | none =>
            let st := startService h sv en.1
            match st.2 with
            | some err => (st.1, Result.Error err)
            | none =>
              (st.1 ++ [Event.Println "service was successfully installed and started".data],
                Result.Exit 0)

/-- The callback of the command `remove`. -/
def remove (h : Host) (sv : Service) : Trace × Result :=
  let t : Trace := [Event.Getuid h.Getuid]
  if h.Getuid != 0 then
    (t, Result.Error "you need root priviledges to remove this service".data)
  else
    let e := existsService h sv t
    if e.2 then
      let r := removeService h sv (stopService h sv (disableService h sv e.1).1).1
      match r.2 with
      | some err => (r.1, Result.Error err)
      | none =>
        (r.1 ++ [Event.Println "service was successfully uninstalled".data], Result.Exit 0)
    else (e.1, Result.Error (notInstalled sv))

/-- The callback of the command `enable`. -/
def enable (h : Host) (sv : Service) : Trace × Result :=
  let t : Trace := [Event.Getuid h.Getuid]
  if h.Getuid != 0 then
    (t, Result.Error "you need root priviledges to enable this service".data)
  else
    let e := existsService h sv t
    if !e.2 then (e.1, Result.Error (notInstalled sv))
    else
      let r := enableService h sv e.1
      match r.2 with
      | some err => (r.1, Result.Error err)
      | none =>
        (r.1 ++ [Event.Println "automatic start of service was successfully enabled".data],
          Result.Exit 0)

/-- The callback of the command `disable`. -/
def disable (h : Host) (sv : Service) : Trace × Result :=
  let t : Trace := [Event.Getuid h.Getuid]
  if h.Getuid != 0 then
    (t, Result.Error "you need root priviledges to disable this service".data)
  else
    let e := existsService h sv t
    if !e.2 then (e.1, Result.Error (notInstalled sv))
    else
      let r := disableService h sv e.1
      match r.2 with
      | some err => (r.1, Result.Error err)
      | none =>
        (r.1 ++ [Event.Println "automatic start of service was successfully disabled".data],
          Result.Exit 0)

/-- The callback of the command `start`. -/
def start (h : Host) (sv : Service) : Trace × Result :=
  let t : Trace := [Event.Getuid h.Getuid]
  if h.Getuid != 0 then
    (t, Result.Error "you need root priviledges to start this service".data)
  else
    let e := existsService h sv t
    if !e.2 then (e.1, Result.Error (notInstalled sv))
    else
      let r := startService h sv e.1
      match r.2 with
      | some err => (r.1, Result.Error err)
      | none => (r.1 ++ [Event.Println "service was successfully started".data], Result.Exit 0)

/-- The callback of the command `stop`. -/
def stop (h : Host) (sv : Service) : Trace × Result :=
  let t : Trace := [Event.Getuid h.Getuid]
  if h.Getuid != 0 then
    (t, Result.Error "you need root priviledges to stop this service".data)
  else
    let e := existsService h sv t
    if !e.2 then (e.1, Result.Error (notInstalled sv))
    else
      let r := stopService h sv e.1
      match r.2 with
      | none => (r.1 ++ [Event.Println "service was successfully stopped".data], Result.Exit 0)
      | some err =>
        if err = "already stopped".data then
          (r.1 ++ [Event.Println "service was already stopped".data], Result.Exit 0)
        else (r.1, Result.Error err)

/-- The text of `%t`. -/
def fmtBool (b : Bool) : Str := if b then "true".data else "false".data

/-- The callback of the command `status`. -/
def status (h : Host) (sv : Service) : Trace × Result :=
  let t : Trace := [Event.Getuid h.Getuid]
  if h.Getuid != 0 then
    (t, Result.Error "you need root priviledges to status this service".data)
  else
    let e := existsService h sv t
    if !e.2 then (e.1, Result.Error (notInstalled sv))
    else
      let r := statusService h sv e.1
      match r.2 with
      | Except.error err => (r.1, Result.Error err)
      | Except.ok (enabled, running) =>
        (r.1 ++ [Event.Println ("enabled: ".data ++ fmtBool enabled ++ ", running: ".data
          ++ fmtBool running)], Result.Exit 0)

/-- The commands that `Daemonize` registers on Linux, by name. -/
def commands : List (Str × (Host → Service → Trace × Result)) :=
  [("install".data, install), ("remove".data, remove), ("enable".data, enable),
   ("disable".data, disable), ("start".data, start), ("stop".data, stop),
   ("status".data, status)]

/-- A step that asks the service manager for something or touches a file: every step
but reading the uid of the caller. -/
def Event.touchesSystem : Event → Bool
  | Event.Getuid _ => false
  | _ => true

/-- A host on which the caller is root, the unit file is there, and the service manager
reports the service active and enabled; `systemctl stop` prints nothing. -/
def runningHost : Host :=
  { Getuid := 0
    Stat := fun _ _ => Except.ok (0, 0)
    Systemctl := fun _ verb _ =>
      if verb = "is-active".data then ("active\n".data, none)
      else if verb = "is-enabled".data then ("enabled\n".data, none)
      else ([], none)
    LookupId := fun _ _ => Except.ok "root".data
    LookupGroupId := fun _ _ => Except.ok "root".data
    Remove := fun _ _ => none }

/-- The same host with the service reported inactive. -/
def stoppedHost : Host :=
  { runningHost with
    Systemctl := fun _ verb _ =>
      if verb = "is-active".data then ("inactive\n".data, none)
      else if verb = "is-enabled".data then ("enabled\n".data, none)
      else ([], none) }

/-- A service named `My App`. -/
def sampleService : Service :=
  { serviceName := "My App".data
    serviceDescription := "demo".data
    exepath := "/opt/app/my-app".data }

end linux

/-! ## The service commands on Windows (service_windows.go) -/

namespace windows

/-- The states `svc.State` of a service. -/
inductive State where
  | Stopped
  | StartPending
  | StopPending
  | Running
  | ContinuePending
  | PausePending
  | Paused
  deriving DecidableEq, Repr

/-- The number of a state (`svc.Stopped` is 1, ..., `svc.Paused` is 7). -/
def State.toNat : State → Nat
  | State.Stopped => 1
  | State.StartPending => 2
  | State.StopPending => 3
  | State.Running => 4
  | State.ContinuePending => 5
  | State.PausePending => 6
  | State.Paused => 7

/-- The control requests `svc.Cmd` that the commands send. -/
inductive Cmd where
  | Stop
  | Pause
  | Continue
  deriving DecidableEq, Repr

/-- The number of a control request (`svc.Stop` is 1, `svc.Pause` 2, `svc.Continue` 3). -/
def Cmd.toNat : Cmd → Nat
  | Cmd.Stop => 1
  | Cmd.Pause => 2
  | Cmd.Continue => 3

/-- One step of a lifecycle command, with what the system answered: requests to the
service manager (`mgr.Connect`, `OpenService`, `Control`, `Query`, `Start`,
`CreateService`, `Delete` and the closing of the handles), to the event log, to the file
system (`filepath.Abs`, `os.Stat` with the answer "is a directory"), a wait, a line
logged. -/
inductive Event where
  | Connect (err : Option Str)
  | Disconnect
  | OpenService (name : Str) (err : Option Str)
  | Close
  | Control (c : Cmd) (r : Except Str State)
  | Query (r : Except Str State)
  | Start (err : Option Str)
  | CreateService (name exepath description : Str) (err : Option Str)
  | Delete (err : Option Str)
  | InstallAsEventCreate (name : Str) (err : Option Str)
  | EventlogRemove (name : Str) (err : Option Str)
  | Abs (path : Str) (r : Except Str Str)
  | Stat (name : Str) (r : Except Str Bool)
  | Sleep (ms : Nat)
  | Println (text : Str)
  deriving DecidableEq, Repr

/-- The steps of a command so far, oldest first. -/
abbrev Trace := List Event

/-- The system: what it answers to each request, given the steps so far. -/
structure Manager where
  Args0 : Str
  Abs : Trace → Str → Except Str Str
  Stat : Trace → Str → Except Str Bool
  Connect : Trace → Option Str
  OpenService : Trace → Str → Option Str
  Control : Trace → Cmd → Except Str State
  Query : Trace → Except Str State
  Start : Trace → Option Str
  CreateService : Trace → Str → Str → Str → Option Str
  Delete : Trace → Option Str
  InstallAsEventCreate : Trace → Str → Option Str
  EventlogRemove : Trace → Str → Option Str

/-- The run of a command: its steps, and the clock in milliseconds, which a wait moves on. -/
structure Run where
  trace : Trace := []
  now : Nat := 0
  deriving DecidableEq, Repr

/-- The run with one more step. -/
def Run.step (r : Run) (e : Event) : Run := { r with trace := r.trace ++ [e] }

/-- The run after `time.Sleep(ms)` or `<-time.After(ms)`. -/
def Run.sleep (r : Run) (ms : Nat) : Run :=
  { trace := r.trace ++ [Event.Sleep ms], now := r.now + ms }

/-- Go `filepath.Ext`: the suffix from the last dot of the last element of the path. -/
def filepathExt (p : Str) : Str :=
  let tail := p.reverse.takeWhile (fun c => c != '\\' && c != '/')
  if '.' ∈ tail then ('.' :: (tail.takeWhile (fun c => c != '.')).reverse) else []

/-- The function `exePath` of service_windows.go. -/
def exePath (m : Manager) (r : Run) : Run × Except Str Str :=
  let a := m.Abs r.trace m.Args0
  let r := r.step (Event.Abs m.Args0 a)
  match a with
  | Except.error err => (r, Except.error err)
  | Except.ok p =>
    let fi := m.Stat r.trace p
    let r := r.step (Event.Stat p fi)
    let found : Option (Except Str Str) :=
      match fi with
      | Except.ok isDir => if !isDir then some (Except.ok p) else none
      | Except.error _ => none
    match found with
    | some res => (r, res)
    | none =>
      let err : Str :=
        match fi with
        | Except.ok _ => p ++ " is directory".data
        | Except.error e => e
      if filepathExt p = [] then
        let p2 := p ++ ".exe".data
        let fi2 := m.Stat r.trace p2
        let r := r.step (Event.Stat p2 fi2)
        match fi2 with
        | Except.ok isDir =>
          if !isDir then (r, Except.ok p2) else (r, Except.error (p2 ++ " is directory".data))
        | Except.error _ => (r, Except.error err)
      else (r, Except.error err)

/-- The function `startService` of service_windows.go: the returned error. -/
def startService (m : Manager) (serviceName : Str) (r : Run) : Run × Option Str :=
  let conn := m.Connect r.trace
  let r := r.step (Event.Connect conn)
  match conn with
  | some err => (r, some err)
  | none =>
    let op := m.OpenService r.trace serviceName
    let r := r.step (Event.OpenService serviceName op)
    match op with
    | some err => (r.step Event.Disconnect, some ("could not access service: ".data ++ err))
    | none =>
      let st := m.Start r.trace
      let r := ((r.step (Event.Start st)).step Event.Close).step Event.Disconnect
      match st with
      | some err => (r, some ("could not start service: ".data ++ err))
      | none => (r, none)

/-- The loop of `controlService` (lines 178-187) from the state `status` last reported,
`target` being the parameter `to`;
`none` when `fuel` passes of the loop did not end it. -/
def controlLoop (m : Manager) (target : State) (timeout : Nat) :
    Nat → State → Run → Option (Run × Option Str)
  | 0, _, _ => none
  | fuel + 1, status, r =>
    if status = target then some (r, none)
    else if timeout < r.now then
      some (r, some ("timeout waiting for service to go to state=".data
        ++ Nat.toDigits 10 target.toNat))
    else
      let r := r.sleep 300
      let q := m.Query r.trace
      let r := r.step (Event.Query q)
      match q with
      | Except.error err => some (r, some ("could not retrieve service status: ".data ++ err))
      | Except.ok st => controlLoop m target timeout fuel st r

/-- The function `controlService` of service_windows.go: the returned error; `none` when
`fuel` passes of its loop did not end it. -/
def controlService (m : Manager) (fuel : Nat) (name : Str) (c : Cmd) (target : State) (r : Run) :
    Option (Run × Option Str) :=
  let conn := m.Connect r.trace
  let r := r.step (Event.Connect conn)
  match conn with
  | some err => some (r, some err)
  | none =>
    let op := m.OpenService r.trace name
    let r := r.step (Event.OpenService name op)
    match op with
    | some err => some (r.step Event.Disconnect, some ("could not access service: ".data ++ err))
    | none =>
      let ctl := m.Control r.trace c
      let r := r.step (Event.Control c ctl)
      match ctl with
      | Except.error err =>
        some ((r.step Event.Close).step Event.Disconnect,
          some ("could not send control=".data ++ Nat.toDigits 10 c.toNat ++ ": ".data ++ err))
      | Except.ok status =>
        match controlLoop m target (r.now + 10000) fuel status r with
        | none => none
        | some (r1, err) => some ((r1.step Event.Close).step Event.Disconnect, err)

/-- The callback of the command `install`; `none` when `fuel` passes of the loop of
`controlService` did not end it. -/
def install (m : Manager) (fuel : Nat) (serviceName serviceDescription : Str) :
    Option (Run × Result) :=
  match controlService m fuel serviceName Cmd.Stop State.Stopped {} with
  | none => none
  | some (r, _) =>
    let e := exePath m r
    match e.2 with
    | Except.error err => some (e.1, Result.Error err)
    | Except.ok exepath =>
      let r := e.1
      let conn := m.Connect r.trace
      let r := r.step (Event.Connect conn)
      match conn with
      | some err => some (r, Result.Error err)
      | none =>
        let op := m.OpenService r.trace serviceName
        let r := r.step (Event.OpenService serviceName op)
        match op with
        | none =>
          some ((r.step Event.Close).step Event.Disconnect,
            Result.Error ("service ".data ++ serviceName ++ " already exists".data))
        | some _ =>
          let cr := m.CreateService r.trace serviceName exepath serviceDescription
          let r := r.step (Event.CreateService serviceName exepath serviceDescription cr)
          match cr with
          | some err => some (r.step Event.Disconnect, Result.Error err)
          | none =>
            let ev := m.InstallAsEventCreate r.trace serviceName
            let r := r.step (Event.InstallAsEventCreate serviceName ev)
            match ev with
            | some err =>
              let d := m.Delete r.trace
              some ((((r.step (Event.Delete d)).step Event.Close).step Event.Disconnect),
                Result.Error ("SetupEventLogSource() failed: ".data ++ err))
            | none =>
              let st := startService m serviceName r
              match st.2 with
              | some err =>
                some ((st.1.step Event.Close).step Event.Disconnect, Result.Error err)
              | none =>
                some (st.1.step
                  (Event.Println "service was successfully installed and started".data),
                  Result.Exit 0)

/-- The callback of the command `remove`. -/
def remove (m : Manager) (fuel : Nat) (serviceName : Str) : Option (Run × Result) :=
  match controlService m fuel serviceName Cmd.Stop State.Stopped {} with
  | none => none
  | some (r, _) =>
    let conn := m.Connect r.trace
    let r := r.step (Event.Connect conn)
    match conn with
    | some err => some (r, Result.Error err)
    | none =>
      let op := m.OpenService r.trace serviceName
      let r := r.step (Event.OpenService serviceName op)
      match op with
      | some _ =>
        some (r.step Event.Disconnect,
          Result.Error ("service ".data ++ serviceName ++ " is not installed".data))
      | none =>
        let d := m.Delete r.trace
        let r := r.step (Event.Delete d)
        match d with
        | some err => some ((r.step Event.Close).step Event.Disconnect, Result.Error err)
        | none =>
          let ev := m.EventlogRemove r.trace serviceName
          let r := r.step (Event.EventlogRemove serviceName ev)
          match ev with
          | some err =>
            some ((r.step Event.Close).step Event.Disconnect,
              Result.Error ("RemoveEventLogSource() failed: ".data ++ err))
          | none =>
            some (r.step (Event.Println "service was successfully uninstalled".data),
              Result.Exit 0)

/-- The callback of the command `start`. -/
def start (m : Manager) (fuel : Nat) (serviceName : Str) : Option (Run × Result) :=
  match controlService m fuel serviceName Cmd.Stop State.Stopped {} with
  | none => none
  | some (r, _) =>
    let st := startService m serviceName r
    match st.2 with
    | some err => some (st.1, Result.Error err)
    | none =>
      some (st.1.step (Event.Println "service was successfully started".data), Result.Exit 0)

/-- The callback of the command `stop`. -/
def stop (m : Manager) (fuel : Nat) (serviceName : Str) : Option (Run × Result) :=
  match controlService m fuel serviceName Cmd.Stop State.Stopped {} with
  | none => none
  | some (r, some err) => some (r, Result.Error err)
  | some (r, none) =>
    some ((r.sleep 2000).step (Event.Println "service was successfully stopped".data),
      Result.Exit 0)

/-- The callback of the command `pause`. -/
def pause (m : Manager) (fuel : Nat) (serviceName : Str) : Option (Run × Result) :=
  match controlService m fuel serviceName Cmd.Pause State.Paused {} with
  | none => none
  | some (r, some err) => some (r, Result.Error err)
  | some (r, none) =>
    some (r.step (Event.Println "service was successfully paused".data), Result.Exit 0)

/-- The callback of the command `continue`. -/
def continueCommand (m : Manager) (fuel : Nat) (serviceName : Str) : Option (Run × Result) :=
  match controlService m fuel serviceName Cmd.Continue State.Running {} with
  | none => none
  | some (r, some err) => some (r, Result.Error err)
  | some (r, none) =>
    some (r.step (Event.Println "service was successfully continued".data), Result.Exit 0)

/-- A step that asks the service manager or the event log for something, or reads the
file system: every step but a wait and a line logged. -/
def Event.touchesSystem : Event → Bool
  | Event.Sleep _ => false
  | Event.Println _ => false
  | _ => true

/-- A step on a service registration or on the event log: opening, creating, controlling,
querying, starting or deleting a service, closing its handle, adding or removing the event
source. -/
def Event.usesService : Event → Bool
  | Event.OpenService _ _ => true
  | Event.Close => true
  | Event.Control _ _ => true
  | Event.Query _ => true
  | Event.Start _ => true
  | Event.CreateService _ _ _ _ => true
  | Event.Delete _ => true
  | Event.InstallAsEventCreate _ _ => true
  | Event.EventlogRemove _ _ => true
  | _ => false

/-- The commands that `Daemonize` registers on Windows, by name. -/
def commands (serviceName serviceDescription : Str) :
    List (Str × (Manager → Nat → Option (Run × Result))) :=
  [("install".data, fun m fuel => install m fuel serviceName serviceDescription),
   ("remove".data, fun m fuel => remove m fuel serviceName),
   ("start".data, fun m fuel => start m fuel serviceName),
   ("stop".data, fun m fuel => stop m fuel serviceName),
   ("pause".data, fun m fuel => pause m fuel serviceName),
   ("continue".data, fun m fuel => continueCommand m fuel serviceName)]

/-- The number of status queries among the steps. -/
def queries (t : Trace) : Nat :=
  (t.filter (fun e => match e with
    | Event.Query _ => true
    | _ => false)).length

/-- A system on which the caller has no elevated privilege: the service manager refuses
the connection. -/
def deniedManager : Manager :=
  { Args0 := "app.exe".data
    Abs := fun _ p => Except.ok ("C:\\srv\\".data ++ p)
    Stat := fun _ _ => Except.ok false
    Connect := fun _ => some "Access is denied.".data
    OpenService := fun _ _ => some "Access is denied.".data
    Control := fun _ _ => Except.error "Access is denied.".data
    Query := fun _ => Except.error "Access is denied.".data
    Start := fun _ => some "Access is denied.".data
    CreateService := fun _ _ _ _ => some "Access is denied.".data
    Delete := fun _ => some "Access is denied.".data
    InstallAsEventCreate := fun _ _ => some "Access is denied.".data
    EventlogRemove := fun _ _ => some "Access is denied.".data }

/-- A system whose service reports Running on the status query number `k` (from 0) and
later, and ContinuePending before. -/
def runningAfter (k : Nat) : Manager :=
  { Args0 := "app.exe".data
    Abs := fun _ p => Except.ok p
    Stat := fun _ _ => Except.ok false
    Connect := fun _ => none
    OpenService := fun _ _ => none
    Control := fun _ _ => Except.ok State.ContinuePending
    Query := fun t => Except.ok (if k ≤ queries t then State.Running else State.ContinuePending)
    Start := fun _ => none
    CreateService := fun _ _ _ _ => none
    Delete := fun _ => none
    InstallAsEventCreate := fun _ _ => none
    EventlogRemove := fun _ _ => none }

end windows

/-- The passes of the loop of `controlService` that get past the timeout test, the clock
standing at `now` and moving 300 ms in each pass. -/
def windows.polls (timeout now : Nat) : Nat :=
  if timeout < now then 0 else (timeout - now) / 300 + 1

/-- The error of `controlService` on a timeout. -/
def windows.timeoutError (target : windows.State) : Str :=
  "timeout waiting for service to go to state=".data ++ Nat.toDigits 10 target.toNat

/-! ## Theorems -/

theorem ascii_char (P : Char → Prop) (h : ∀ n < 128, P (Char.ofNat n)) (c : Char)
    (hc : c.toNat < 128) : P c := by
  have := h c.toNat hc
  rwa [Char.ofNat_toNat] at this

theorem isAlnum_lt (c : Char) (h : isAlnum c = true) : c.toNat < 128 := by
  simp only [isAlnum, IsUpper, IsLower, IsDigit, Bool.or_eq_true, Bool.and_eq_true,
    decide_eq_true_eq] at h
  omega

set_option maxRecDepth 4000 in
theorem toLower_alnum_aux : ∀ n < 128, isAlnum (Char.ofNat n) = true →
    (IsLower (ToLower (Char.ofNat n)) || IsDigit (ToLower (Char.ofNat n))) = true
      ∧ ToLower (Char.ofNat n) ≠ '-' ∧ Char.ofNat n ≠ '-' ∧ Char.ofNat n ≠ rune0
      ∧ IsUpper (ToLower (Char.ofNat n)) = false := by
  decide

theorem dashSegment_eq (prev : Char) (cs acc : Str) :
    dashSegment prev cs acc = acc ++ segOut acc.isEmpty prev cs := by
  induction cs generalizing prev acc with
  | nil => simp [dashSegment, segOut]
  | cons c rest ih =>
    simp only [dashSegment, segOut]
    rw [ih]
    cases hyphenCond prev c (rest.headD rune0) <;> cases acc <;> simp

theorem split_no_sep (s : Str) (sep : Char) (h : sep ∉ s) : strings.Split s sep = [s] := by
  induction s with
  | nil => rfl
  | cons c cs ih =>
    simp only [List.mem_cons, not_or] at h
    have hc : c ≠ sep := fun e => h.1 e.symm
    simp [strings.Split, hc, ih h.2]

theorem replaceAll_dd_nil : strings.ReplaceAll [] ['-', '-'] ['-'] = [] := rfl

theorem replaceAll_dd_single (a : Char) : strings.ReplaceAll [a] ['-', '-'] ['-'] = [a] := by
  simp [strings.ReplaceAll, strings.replaceFrom]

theorem replaceAll_dd_hit (rest : Str) :
    strings.ReplaceAll ('-' :: '-' :: rest) ['-', '-'] ['-']
      = '-' :: strings.ReplaceAll rest ['-', '-'] ['-'] := by
  simp [strings.ReplaceAll, strings.replaceFrom]

theorem replaceAll_dd_miss (a b : Char) (rest : Str) (h : ¬ (a = '-' ∧ b = '-')) :
    strings.ReplaceAll (a :: b :: rest) ['-', '-'] ['-']
      = a :: strings.ReplaceAll (b :: rest) ['-', '-'] ['-'] := by
  have : ¬ (['-', '-'] <+: a :: b :: rest) := by
    intro hp
    rw [List.cons_prefix_cons, List.cons_prefix_cons] at hp
    exact h ⟨hp.1.symm, hp.2.1.symm⟩
  simp [strings.ReplaceAll, strings.replaceFrom, this]

theorem replaceAll_dd_id (s : Str) (h : hasDoubleHyphen s = false) :
    strings.ReplaceAll s ['-', '-'] ['-'] = s := by
  induction s with
  | nil => rfl
  | cons a rest ih =>
    cases rest with
    | nil => exact replaceAll_dd_single a
    | cons b rest2 =>
      simp only [hasDoubleHyphen, Bool.or_eq_false_iff, Bool.and_eq_false_iff] at h
      rw [replaceAll_dd_miss, ih h.2]
      intro hc
      rcases h.1 with h1 | h1
      · simp [hc.1] at h1
      · simp [hc.2] at h1

theorem hasDoubleHyphen_iff (s : Str) : hasDoubleHyphen s = true ↔ ['-', '-'] <:+: s := by
  induction s with
  | nil => simp [hasDoubleHyphen]
  | cons a rest ih =>
    rw [List.infix_cons_iff, ← ih]
    cases rest with
    | nil => simp [hasDoubleHyphen]
    | cons b rest2 =>
      simp only [hasDoubleHyphen, Bool.or_eq_true, Bool.and_eq_true, beq_iff_eq,
        List.cons_prefix_cons, List.nil_prefix, and_true]
      constructor
      · rintro (⟨h1, h2⟩ | h)
        · exact Or.inl ⟨h1.symm, h2.symm⟩
        · exact Or.inr h
      · rintro (⟨h1, h2⟩ | h)
        · exact Or.inl ⟨h1.symm, h2.symm⟩
        · exact Or.inr h

theorem hasDoubleHyphen_cons_ne (a : Char) (t : Str) (h : a ≠ '-') :
    hasDoubleHyphen (a :: t) = hasDoubleHyphen t := by
  cases t with
  | nil => rfl
  | cons b t2 => simp [hasDoubleHyphen, h]

theorem hasDoubleHyphen_cons_cons_ne (a b : Char) (t : Str) (h : b ≠ '-') :
    hasDoubleHyphen (a :: b :: t) = hasDoubleHyphen t := by
  rw [← hasDoubleHyphen_cons_ne b t h]
  simp [hasDoubleHyphen, h]

set_option maxRecDepth 4000 in
theorem toLower_upper_aux : ∀ n < 128, IsUpper (Char.ofNat n) = true →
    IsLower (ToLower (Char.ofNat n)) = true ∧ ToLower (Char.ofNat n) ≠ '-'
      ∧ IsUpper (ToLower (Char.ofNat n)) = false ∧ ToLower (Char.ofNat n) ≠ rune0 := by
  decide

theorem isUpper_lt (c : Char) (h : IsUpper c = true) : c.toNat < 128 := by
  simp only [IsUpper, Bool.and_eq_true, decide_eq_true_eq] at h
  omega

theorem toLower_of_not_upper (c : Char) (h : IsUpper c = false) : ToLower c = c := by
  simp [ToLower, h]

theorem toLower_ne_hyphen (c : Char) (h : c ≠ '-') : ToLower c ≠ '-' := by
  cases hu : IsUpper c with
  | false => rwa [toLower_of_not_upper c hu]
  | true =>
    exact (ascii_char (fun c => IsUpper c = true → ToLower c ≠ '-')
      (fun n hn h => (toLower_upper_aux n hn h).2.1) c (isUpper_lt c hu)) hu

theorem isUpper_toLower (c : Char) : IsUpper (ToLower c) = false := by
  cases hu : IsUpper c with
  | false => rwa [toLower_of_not_upper c hu]
  | true =>
    exact (ascii_char (fun c => IsUpper c = true → IsUpper (ToLower c) = false)
      (fun n hn h => (toLower_upper_aux n hn h).2.2.1) c (isUpper_lt c hu)) hu

theorem segOut_noDouble (first : Bool) (prev : Char) (s : Str) (h : '-' ∉ s) :
    hasDoubleHyphen (segOut first prev s) = false := by
  induction s generalizing first prev with
  | nil => rfl
  | cons c rest ih =>
    simp only [List.mem_cons, not_or] at h
    have hc : ToLower c ≠ '-' := toLower_ne_hyphen c (fun e => h.1 e.symm)
    simp only [segOut]
    split
    · simp only [List.singleton_append]
      rw [hasDoubleHyphen_cons_cons_ne _ _ _ hc]
      exact ih false c h.2
    · simp only [List.nil_append]
      rw [hasDoubleHyphen_cons_ne _ _ hc]
      exact ih false c h.2

theorem dash_eq_segOut (s : Str) (h : '-' ∉ s) : dash s = segOut true rune0 s := by
  simp only [dash, split_no_sep s '-' h, dashParts, List.length_nil, gt_iff_lt, lt_self_iff_false,
    if_false, dashSegment_eq, List.nil_append, List.isEmpty_nil]
  exact replaceAll_dd_id _ (segOut_noDouble true rune0 s h)

theorem isAlnum_ne_hyphen (c : Char) (h : isAlnum c = true) : c ≠ '-' := by
  exact (ascii_char (fun c => isAlnum c = true → c ≠ '-')
    (fun n hn h => (toLower_alnum_aux n hn h).2.2.1) c (isAlnum_lt c h)) h

theorem isAlnum_ne_zero (c : Char) (h : isAlnum c = true) : c ≠ rune0 := by
  exact (ascii_char (fun c => isAlnum c = true → c ≠ rune0)
    (fun n hn h => (toLower_alnum_aux n hn h).2.2.2.1) c (isAlnum_lt c h)) h

theorem isAlnum_toLower (c : Char) (h : isAlnum c = true) :
    (IsLower (ToLower c) || IsDigit (ToLower c)) = true := by
  exact (ascii_char (fun c => isAlnum c = true → (IsLower (ToLower c) || IsDigit (ToLower c)) = true)
    (fun n hn h => (toLower_alnum_aux n hn h).1) c (isAlnum_lt c h)) h

theorem alnum_no_hyphen (s : Str) (h : s.all isAlnum = true) : '-' ∉ s := by
  intro hm
  exact isAlnum_ne_hyphen _ (List.all_eq_true.mp h _ hm) rfl

theorem segOut_chars (first : Bool) (prev : Char) (s : Str) (h : s.all isAlnum = true) :
    ∀ c ∈ segOut first prev s, IsLower c = true ∨ IsDigit c = true ∨ c = '-' := by
  induction s generalizing first prev with
  | nil => simp [segOut]
  | cons a rest ih =>
    simp only [List.all_cons, Bool.and_eq_true] at h
    intro c hc
    simp only [segOut, List.mem_append, List.mem_cons] at hc
    rcases hc with hc | hc | hc
    · split at hc
      · simp only [List.mem_singleton] at hc
        exact Or.inr (Or.inr hc)
      · simp at hc
    · subst hc
      have := isAlnum_toLower a h.1
      simp only [Bool.or_eq_true] at this
      rcases this with h1 | h1
      · exact Or.inl h1
      · exact Or.inr (Or.inl h1)
    · exact ih false a h.2 c hc

/-- C4. For every non-empty ASCII alphanumeric identifier the text `dash` returns is made
of lowercase letters, digits and hyphens only, and holds no two adjacent hyphens. -/
theorem dash_identifier_kebab (s : Str) (hs : s.all isAlnum = true) :
    (∀ c ∈ dash s, IsLower c = true ∨ IsDigit c = true ∨ c = '-')
      ∧ ¬ (['-', '-'] <:+: dash s) := by
  have hd := dash_eq_segOut s (alnum_no_hyphen s hs)
  refine ⟨?_, ?_⟩
  · rw [hd]
    exact segOut_chars true rune0 s hs
  · rw [← hasDoubleHyphen_iff, hd, segOut_noDouble true rune0 s (alnum_no_hyphen s hs)]
    simp

theorem dash_identifier_kebab_witness :
    "fooBar".data.all isAlnum = true
      ∧ (∀ c ∈ dash "fooBar".data, IsLower c = true ∨ IsDigit c = true ∨ c = '-')
      ∧ ¬ (['-', '-'] <:+: dash "fooBar".data) :=
  ⟨by decide, dash_identifier_kebab "fooBar".data (by decide)⟩

theorem split_ne_nil (s : Str) (sep : Char) : strings.Split s sep ≠ [] := by
  cases s with
  | nil => simp [strings.Split]
  | cons c cs =>
    simp only [strings.Split]
    split
    · simp
    · split <;> simp

theorem joinParts_split (s : Str) (sep : Char) : joinParts sep (strings.Split s sep) = s := by
  induction s with
  | nil => rfl
  | cons c cs ih =>
    simp only [strings.Split]
    split
    · rename_i h
      subst h
      cases hsp : strings.Split cs c with
      | nil => exact absurd hsp (split_ne_nil cs c)
      | cons p ps =>
        rw [hsp] at ih
        simp only [joinParts, List.nil_append, List.flatMap_cons] at ih ⊢
        rw [← ih]
        rfl
    · cases hsp : strings.Split cs sep with
      | nil => exact absurd hsp (split_ne_nil cs sep)
      | cons p ps =>
        rw [hsp] at ih
        simp only [joinParts] at ih ⊢
        rw [← ih]
        rfl

theorem split_mem (s : Str) (sep : Char) :
    ∀ q ∈ strings.Split s sep, ∀ c ∈ q, c ∈ s ∧ c ≠ sep := by
  induction s with
  | nil => simp [strings.Split]
  | cons a cs ih =>
    intro q hq c hc
    simp only [strings.Split] at hq
    split at hq
    · simp only [List.mem_cons] at hq
      rcases hq with hq | hq
      · subst hq; simp at hc
      · have := ih q hq c hc
        exact ⟨List.mem_cons_of_mem _ this.1, this.2⟩
    · rename_i hne
      cases hsp : strings.Split cs sep with
      | nil => exact absurd hsp (split_ne_nil cs sep)
      | cons p ps =>
        rw [hsp] at hq ih
        simp only [List.mem_cons] at hq
        rcases hq with hq | hq
        · subst hq
          simp only [List.mem_cons] at hc
          rcases hc with hc | hc
          · subst hc
            exact ⟨List.mem_cons_self _ _, hne⟩
          · have := ih p (List.mem_cons_self _ _) c hc
            exact ⟨List.mem_cons_of_mem _ this.1, this.2⟩
        · have := ih q (List.mem_cons_of_mem _ hq) c hc
          exact ⟨List.mem_cons_of_mem _ this.1, this.2⟩

theorem hyphenCond_of_not_upper (p c n : Char) (h : IsUpper c = false) :
    hyphenCond p c n = false := by
  simp [hyphenCond, h]

theorem segOut_lower (first : Bool) (prev : Char) (s : Str) (h : ∀ c ∈ s, IsUpper c = false) :
    segOut first prev s = s := by
  induction s generalizing first prev with
  | nil => rfl
  | cons c rest ih =>
    have hc := h c (List.mem_cons_self _ _)
    simp only [segOut, hyphenCond_of_not_upper _ _ _ hc, Bool.false_and, Bool.false_eq_true,
      if_false, List.nil_append, toLower_of_not_upper c hc]
    rw [ih false c (fun d hd => h d (List.mem_cons_of_mem _ hd))]

theorem dashParts_lower (parts : List Str) (acc : Str) (hacc : acc ≠ [])
    (h : ∀ q ∈ parts, ∀ c ∈ q, IsUpper c = false) :
    dashParts parts acc = acc ++ parts.flatMap (fun q => '-' :: q) := by
  induction parts generalizing acc with
  | nil => simp [dashParts]
  | cons p ps ih =>
    have hlen : acc.length > 0 := List.length_pos.mpr hacc
    simp only [dashParts, hlen, if_true, dashSegment_eq]
    rw [ih _ (by simp) (fun q hq => h q (List.mem_cons_of_mem _ hq))]
    have : (acc ++ ['-']).isEmpty = false := by cases acc <;> simp
    rw [this, segOut_lower false rune0 p (h p (List.mem_cons_self _ _))]
    simp

theorem dashParts_split_lower (k : Str) (hlow : ∀ c ∈ k, IsUpper c = false)
    (hhead : k.head? ≠ some '-') : dashParts (strings.Split k '-') [] = k := by
  have hj := joinParts_split k '-'
  have hm := split_mem k '-'
  cases hsp : strings.Split k '-' with
  | nil => exact absurd hsp (split_ne_nil k '-')
  | cons p ps =>
    rw [hsp] at hj hm
    have hpl : ∀ q ∈ p :: ps, ∀ c ∈ q, IsUpper c = false :=
      fun q hq c hc => hlow c (hm q hq c hc).1
    simp only [dashParts, List.length_nil, gt_iff_lt, lt_self_iff_false, if_false, dashSegment_eq,
      List.nil_append, List.isEmpty_nil]
    rw [segOut_lower true rune0 p (hpl p (List.mem_cons_self _ _))]
    cases p with
    | nil =>
      cases ps with
      | nil => simpa [joinParts, dashParts] using hj
      | cons q qs =>
        simp only [joinParts, List.nil_append, List.flatMap_cons] at hj
        rw [← hj] at hhead
        simp at hhead
    | cons a as =>
      rw [dashParts_lower ps (a :: as) (by simp)
        (fun q hq => hpl q (List.mem_cons_of_mem _ hq))]
      exact hj

/-- The function `dash` returns its argument when this holds no uppercase letter, does not
begin with a hyphen and has no two adjacent hyphens. -/
theorem dash_fixed (k : Str) (hlow : ∀ c ∈ k, IsUpper c = false) (hhead : k.head? ≠ some '-')
    (hdd : hasDoubleHyphen k = false) : dash k = k := by
  simp only [dash, dashParts_split_lower k hlow hhead]
  exact replaceAll_dd_id k hdd

set_option maxRecDepth 4000 in
theorem kebabChar_aux : ∀ n < 128,
    (IsLower (Char.ofNat n) = true ∨ IsDigit (Char.ofNat n) = true ∨ Char.ofNat n = '-') →
    IsUpper (Char.ofNat n) = false
    ∧ (if ToLower (ToUpper (if Char.ofNat n = '-' then '_' else Char.ofNat n)) = '_' then '-'
        else ToLower (ToUpper (if Char.ofNat n = '-' then '_' else Char.ofNat n))) = Char.ofNat n := by
  decide

theorem kebabChar_lt (c : Char) (h : IsLower c = true ∨ IsDigit c = true ∨ c = '-') :
    c.toNat < 128 := by
  rcases h with h | h | h
  · simp only [IsLower, Bool.and_eq_true, decide_eq_true_eq] at h; omega
  · simp only [IsDigit, Bool.and_eq_true, decide_eq_true_eq] at h; omega
  · subst h; decide

theorem kebabChar_not_upper (c : Char) (h : IsLower c = true ∨ IsDigit c = true ∨ c = '-') :
    IsUpper c = false :=
  (ascii_char (fun c => (IsLower c = true ∨ IsDigit c = true ∨ c = '-') → IsUpper c = false)
    (fun n hn h => (kebabChar_aux n hn h).1) c (kebabChar_lt c h)) h

theorem kebabChar_round (c : Char) (h : IsLower c = true ∨ IsDigit c = true ∨ c = '-') :
    (if ToLower (ToUpper (if c = '-' then '_' else c)) = '_' then '-'
        else ToLower (ToUpper (if c = '-' then '_' else c))) = c :=
  (ascii_char (fun c => (IsLower c = true ∨ IsDigit c = true ∨ c = '-') →
      (if ToLower (ToUpper (if c = '-' then '_' else c)) = '_' then '-'
        else ToLower (ToUpper (if c = '-' then '_' else c))) = c)
    (fun n hn h => (kebabChar_aux n hn h).2) c (kebabChar_lt c h)) h

theorem replaceAll_char (s : Str) (a b : Char) :
    strings.ReplaceAll s [a] [b] = s.map (fun c => if c = a then b else c) := by
  induction s with
  | nil => rfl
  | cons c cs ih =>
    simp only [strings.ReplaceAll] at ih
    by_cases h : c = a
    · subst h
      simp [strings.ReplaceAll, strings.replaceFrom, ih]
    · have : ¬ a = c := fun e => h e.symm
      simp [strings.ReplaceAll, strings.replaceFrom, ih, h, this]

theorem segOut_head (prev : Char) (s : Str) (h : '-' ∉ s) :
    (segOut true prev s).head? ≠ some '-' := by
  cases s with
  | nil => simp [segOut]
  | cons c rest =>
    simp only [List.mem_cons, not_or] at h
    simp only [segOut, Bool.not_true, Bool.and_false, Bool.false_eq_true, if_false,
      List.nil_append, List.head?_cons, ne_eq, Option.some.injEq]
    exact toLower_ne_hyphen c (fun e => h.1 e.symm)

theorem dash_dash (s : Str) (hs : s.all isAlnum = true) : dash (dash s) = dash s := by
  have hno := alnum_no_hyphen s hs
  have hd := dash_eq_segOut s hno
  rw [hd]
  apply dash_fixed
  · intro c hc
    exact kebabChar_not_upper c (segOut_chars true rune0 s hs c hc)
  · exact segOut_head rune0 s hno
  · exact segOut_noDouble true rune0 s hno

/-- C5. For every ASCII alphanumeric identifier `s`, the environment name of the flag name
`dash s`, lower-cased and with its underscores turned into hyphens, is `dash s` again. -/
theorem env_round_trip (s : Str) (hs : s.all isAlnum = true) :
    flagOfEnv (env (dash s)) = dash s := by
  have hk : ∀ c ∈ dash s, IsLower c = true ∨ IsDigit c = true ∨ c = '-' := by
    rw [dash_eq_segOut s (alnum_no_hyphen s hs)]
    exact segOut_chars true rune0 s hs
  simp only [flagOfEnv, env, dash_dash s hs, replaceAll_char, strings.ToUpper, strings.ToLower,
    List.map_map]
  conv_rhs => rw [← List.map_id (dash s)]
  apply List.map_congr_left
  intro c hc
  simpa using kebabChar_round c (hk c hc)

theorem env_round_trip_witness :
    "HTTPServer2".data.all isAlnum = true
      ∧ flagOfEnv (env (dash "HTTPServer2".data)) = dash "HTTPServer2".data :=
  ⟨by decide, env_round_trip "HTTPServer2".data (by decide)⟩

theorem getD_reverse_append (r t : Str) (k : Nat) (d : Char) :
    (r.reverse ++ t).getD (r.length + k) d = t.getD k d := by
  rw [List.getD_append_right _ _ _ _ (by simp)]
  simp

theorem hyphenCond_index (rpre : Str) (c : Char) (rest : Str)
    (hmem : ∀ x ∈ rpre.reverse ++ c :: rest, isAlnum x = true) :
    (hyphenCond (rpre.headD rune0) c (rest.headD rune0) && !rpre.isEmpty)
      = hyphenBefore (rpre.reverse ++ c :: rest) rpre.length := by
  cases rpre with
  | nil => simp [hyphenBefore]
  | cons p r =>
    have hp : (p != rune0) = true := by
      simpa using isAlnum_ne_zero p (hmem p (by simp))
    have hshape : (p :: r).reverse ++ c :: rest = r.reverse ++ (p :: c :: rest) := by simp
    have hprev : (r.reverse ++ (p :: c :: rest)).getD r.length rune0 = p :=
      getD_reverse_append r (p :: c :: rest) 0 rune0
    have hcur : (r.reverse ++ (p :: c :: rest)).getD (r.length + 1) rune0 = c :=
      getD_reverse_append r (p :: c :: rest) 1 rune0
    rw [hshape]
    cases rest with
    | nil =>
      have hlen : decide (r.length + 1 + 1 < (r.reverse ++ [p, c]).length) = false := by simp
      simp only [hyphenBefore, hyphenCond, List.length_cons, hcur, Nat.add_sub_cancel, hprev, hp,
        hlen, List.headD_cons, List.headD_nil, List.isEmpty_cons]
      cases IsUpper c <;> cases IsUpper p <;> simp
    | cons d r2 =>
      have hd : (d != rune0) = true := by
        simpa using isAlnum_ne_zero d (hmem d (by simp))
      have hnext : (r.reverse ++ (p :: c :: d :: r2)).getD (r.length + 1 + 1) rune0 = d :=
        getD_reverse_append r (p :: c :: d :: r2) 2 rune0
      have hlen : decide (r.length + 1 + 1 < (r.reverse ++ (p :: c :: d :: r2)).length) = true := by
        simp only [List.length_append, List.length_reverse, List.length_cons, decide_eq_true_eq]
        omega
      simp only [hyphenBefore, hyphenCond, List.length_cons, hcur, Nat.add_sub_cancel, hprev, hp,
        hd, hnext, hlen, List.headD_cons, List.isEmpty_cons]
      cases IsUpper c <;> cases IsUpper p <;> cases IsUpper d <;> simp

theorem segOut_index (rpre cs : Str) (h : (rpre.reverse ++ cs).all isAlnum = true) :
    segOut rpre.isEmpty (rpre.headD rune0) cs
      = (List.range' rpre.length cs.length).flatMap
          (fun i => (if hyphenBefore (rpre.reverse ++ cs) i then ['-'] else [])
            ++ [ToLower ((rpre.reverse ++ cs).getD i rune0)]) := by
  induction cs generalizing rpre with
  | nil => simp [segOut]
  | cons c rest ih =>
    have hmem : ∀ x ∈ rpre.reverse ++ c :: rest, isAlnum x = true := List.all_eq_true.mp h
    have ih2 := ih (c :: rpre) (by simpa using h)
    simp only [List.reverse_cons, List.append_assoc, List.singleton_append, List.isEmpty_cons,
      List.headD_cons, List.length_cons] at ih2
    simp only [segOut, List.length_cons, List.range'_succ, List.flatMap_cons, ih2]
    have hget : (rpre.reverse ++ c :: rest).getD rpre.length rune0 = c :=
      getD_reverse_append rpre (c :: rest) 0 rune0
    rw [hyphenCond_index rpre c rest hmem, hget]
    simp

/-- C6, as amended. For every ASCII alphanumeric identifier `s`, `dash s` is `s` lower-cased
with a hyphen before position `i` exactly when `i` is not the first position and `s[i]` is an
uppercase letter that is followed by, or that follows, a character that is no uppercase
letter (a lowercase letter or a digit). -/
theorem dash_inserts_hyphens (s : Str) (hs : s.all isAlnum = true) :
    dash s = insertHyphens hyphenBefore s := by
  rw [dash_eq_segOut s (alnum_no_hyphen s hs)]
  have := segOut_index [] s (by simpa using hs)
  simpa [insertHyphens, List.range_eq_range'] using this

theorem dash_inserts_hyphens_witness :
    "myHTTPServer2Go".data.all isAlnum = true
      ∧ dash "myHTTPServer2Go".data = insertHyphens hyphenBefore "myHTTPServer2Go".data :=
  ⟨by decide, dash_inserts_hyphens "myHTTPServer2Go".data (by decide)⟩

/-- C6, counterexample. On the identifier `AB1` the source puts a hyphen before `B`, which
is followed by a digit and preceded by an uppercase letter: `dash` gives `a-b1`, the rule of
the claim gives `ab1`. -/
theorem dash_digit_counterexample :
    "AB1".data.all isAlnum = true
      ∧ dash "AB1".data = "a-b1".data
      ∧ insertHyphens hyphenBeforeClaimed "AB1".data = "ab1".data
      ∧ dash "AB1".data ≠ insertHyphens hyphenBeforeClaimed "AB1".data := by
  decide

theorem split_eq_splitOn (s : Str) (sep : Char) : strings.Split s sep = s.splitOn sep := by
  induction s with
  | nil => rfl
  | cons c cs ih =>
    simp only [List.splitOn] at ih ⊢
    rw [List.splitOnP_cons, ← ih]
    simp only [strings.Split, beq_iff_eq]
    split
    · rfl
    · cases hsp : strings.Split cs sep with
      | nil => exact absurd hsp (split_ne_nil cs sep)
      | cons p ps => rfl

theorem foldl_append_map (f : Str → Str) (l : List Str) (acc : List Str) :
    l.foldl (fun values value => values ++ [f value]) acc = acc ++ l.map f := by
  induction l generalizing acc with
  | nil => simp
  | cons a l ih => simp [ih]

theorem bindStringList_foldl (items : List Str) (acc : List Str) :
    items.foldl
      (fun values item =>
        (strings.Split item ',').foldl (fun values value => values ++ [strings.TrimSpace value])
          values) acc
      = acc ++ items.flatMap (fun item => (item.splitOn ',').map strings.TrimSpace) := by
  induction items generalizing acc with
  | nil => simp
  | cons a l ih =>
    rw [List.foldl_cons, ih, foldl_append_map, split_eq_splitOn, List.flatMap_cons,
      List.append_assoc]

theorem bindStringList_eq (items : List Str) :
    bindStringList items
      = items.flatMap (fun item => (item.splitOn ',').map strings.TrimSpace) := by
  simp only [bindStringList, bindStringList_foldl, List.nil_append]

/-- C3. The `reflect.Slice` case of `postConfigRecursiveScan` binds a StringList field with
an exported name (on any other field `Set` panics) to the in-order concatenation, over the
tokens `c.StringSlice(flagName)`, of each token split on commas with every piece trimmed:
the scan of the field goes on, with that list in the field, and this is what the two loops
compute on every list of tokens; with no token the bound list is empty, and the tokens
`a, b` and `c` bind to `a`, `b`, `c`. -/
theorem stringList_binding (c : Context) (clock : Nat → Str) (st : PostState) (name : Str)
    (tag : Tag) (old : List Str) (pfx : Str) (hexp : IsExported name = true) :
    (∃ st1, postConfigField c clock st (Field.mk name tag (Value.slice old)) pfx
        = Except.ok (st1, Field.mk name tag (Value.slice
            ((c.StringSlice (dash (rawFlagName pfx name tag).1)).flatMap
              (fun item => (item.splitOn ',').map strings.TrimSpace)))))
    ∧ (∀ items : List Str,
        bindStringList items = items.flatMap (fun item => (item.splitOn ',').map strings.TrimSpace))
    ∧ bindStringList [] = []
    ∧ bindStringList ["a, b".data, "c".data] = ["a".data, "b".data, "c".data] := by
  refine ⟨?_, bindStringList_eq, rfl, by decide⟩
  simp only [postConfigField, hexp, if_true, bindStringList_eq]
  exact ⟨_, rfl⟩

theorem stringList_binding_witness :
    IsExported "Tags".data = true
      ∧ ∃ st1, postConfigField sampleContext (fun _ => "2024-01-02".data) {}
          (Field.mk "Tags".data {} (Value.slice ["q".data])) "server".data
        = Except.ok (st1, Field.mk "Tags".data {} (Value.slice ["a".data, "b".data, "c".data])) :=
  ⟨by decide,
   (stringList_binding sampleContext (fun _ => "2024-01-02".data) {} "Tags".data {} ["q".data]
      "server".data (by decide)).1⟩

theorem digit_aux : ∀ k < 10, IsDigit (Char.ofNat (48 + k)) = true
    ∧ time.digitVal (Char.ofNat (48 + k)) = k ∧ IsSpace (Char.ofNat (48 + k)) = false
    ∧ Char.ofNat (48 + k) ≠ ' ' := by
  decide

theorem isDigit_digit (n : Nat) : IsDigit (digit n) = true :=
  (digit_aux (n % 10) (Nat.mod_lt _ (by decide))).1

theorem digitVal_digit (n : Nat) : time.digitVal (digit n) = n % 10 :=
  (digit_aux (n % 10) (Nat.mod_lt _ (by decide))).2.1

theorem isSpace_digit (n : Nat) : IsSpace (digit n) = false :=
  (digit_aux (n % 10) (Nat.mod_lt _ (by decide))).2.2.1

theorem digit_ne_space (n : Nat) : digit n ≠ ' ' :=
  (digit_aux (n % 10) (Nat.mod_lt _ (by decide))).2.2.2

theorem getnum_pad2 (n : Nat) (hn : n < 100) (v : Str) (fixed : Bool) :
    time.getnum (digit (n / 10) :: digit n :: v) fixed = some (n, v) := by
  simp only [time.getnum, isDigit_digit, digitVal_digit, Bool.not_true, Bool.false_eq_true,
    if_false, if_true, Option.some.injEq, Prod.mk.injEq, and_true]
  omega

theorem parse_year (y : Nat) (hy : y ≤ 9999) (L : List time.Chunk) (v : Str) (p : time.Fields) :
    time.parseChunks (time.Chunk.stdLongYear :: L)
        (digit (y / 1000) :: digit (y / 100) :: digit (y / 10) :: digit y :: v) p
      = time.parseChunks L v { p with year := y } := by
  have : time.atoi [digit (y / 1000), digit (y / 100), digit (y / 10), digit y] = y := by
    simp only [time.atoi, List.foldl_cons, List.foldl_nil, digitVal_digit]
    omega
  simp only [time.parseChunks, isDigit_digit, Bool.and_self, if_true, this]

theorem trimSpace_digits (a b : Nat) (mid : Str) :
    strings.TrimSpace (digit a :: (mid ++ [digit b])) = digit a :: (mid ++ [digit b]) := by
  simp only [strings.TrimSpace, List.dropWhile_cons, isSpace_digit, Bool.false_eq_true, if_false]
  rw [← List.cons_append, List.rdropWhile_concat_neg]
  simp [isSpace_digit]

theorem parse_lit (c : Char) (hc : c ≠ ' ') (L : List time.Chunk) (v : Str) (p : time.Fields) :
    time.parseChunks (time.Chunk.lit c :: L) (c :: v) p = time.parseChunks L v p := by
  simp [time.parseChunks, hc]

theorem parse_space (k : Nat) (L : List time.Chunk) (v : Str) (p : time.Fields) :
    time.parseChunks (time.Chunk.lit ' ' :: L) (' ' :: digit k :: v) p
      = time.parseChunks L (digit k :: v) p := by
  simp [time.parseChunks, digit_ne_space]

theorem parse_month (m : Nat) (h1 : 1 ≤ m) (h2 : m ≤ 12) (L : List time.Chunk) (v : Str)
    (p : time.Fields) :
    time.parseChunks (time.Chunk.stdZeroMonth :: L) (digit (m / 10) :: digit m :: v) p
      = time.parseChunks L v { p with month := some m } := by
  have : ¬ (m ≤ 0 ∨ 12 < m) := by omega
  simp only [time.parseChunks, getnum_pad2 m (by omega), this, if_false]

theorem parse_day (d : Nat) (h : d < 100) (L : List time.Chunk) (v : Str) (p : time.Fields) :
    time.parseChunks (time.Chunk.stdZeroDay :: L) (digit (d / 10) :: digit d :: v) p
      = time.parseChunks L v { p with day := some d } := by
  simp only [time.parseChunks, getnum_pad2 d h]

theorem parse_hour (h : Nat) (hh : h < 24) (L : List time.Chunk) (v : Str) (p : time.Fields) :
    time.parseChunks (time.Chunk.stdHour :: L) (digit (h / 10) :: digit h :: v) p
      = time.parseChunks L v { p with hour := h } := by
  have : ¬ (24 ≤ h) := by omega
  simp only [time.parseChunks, getnum_pad2 h (by omega), this, if_false]

theorem parse_minute (mi : Nat) (h : mi < 60) (L : List time.Chunk) (v : Str) (p : time.Fields) :
    time.parseChunks (time.Chunk.stdZeroMinute :: L) (digit (mi / 10) :: digit mi :: v) p
      = time.parseChunks L v { p with min := mi } := by
  have : ¬ (60 ≤ mi) := by omega
  simp only [time.parseChunks, getnum_pad2 mi (by omega), this, if_false]

theorem parse_second (s : Nat) (h : s < 60) (p : time.Fields) :
    time.parseChunks [time.Chunk.stdZeroSecond] [digit (s / 10), digit s] p
      = some { p with sec := s } := by
  have : ¬ (60 ≤ s) := by omega
  simp [time.parseChunks, getnum_pad2 s (by omega), this]

theorem parse_end (p : time.Fields) : time.parseChunks [] [] p = some p := by
  simp [time.parseChunks]

theorem daysIn_le (m y : Nat) : time.daysIn m y ≤ 31 := by
  unfold time.daysIn
  split
  · split <;> omega
  · split <;> omega

theorem parse_dateTime (y m d h mi s : Nat) (hd : validDate y m d) (hc : validClock h mi s) :
    time.Parse dateTimeFormat (dateText y m d ++ ' ' :: clockText h mi s)
      = some ⟨y, m, d, h, mi, s, 0⟩ := by
  obtain ⟨hy, hm1, hm2, hd1, hd2⟩ := hd
  obtain ⟨hh, hmi, hs⟩ := hc
  have hd3 : d < 100 := by have := daysIn_le m y; omega
  have hday : ¬ (d < 1 ∨ d > time.daysIn m y) := by omega
  simp only [time.Parse, dateTimeFormat, dateText, clockText, pad4, pad2, List.cons_append,
    List.nil_append, parse_year y hy, parse_lit '-' (by decide), parse_month m hm1 hm2,
    parse_day d hd3, parse_space, parse_hour h hh, parse_lit ':' (by decide),
    parse_minute mi hmi, parse_second s hs, Option.getD_some, hday, if_false]

theorem parse_date (y m d : Nat) (hd : validDate y m d) :
    time.Parse dateFormat (dateText y m d) = some ⟨y, m, d, 0, 0, 0, 0⟩ := by
  obtain ⟨hy, hm1, hm2, hd1, hd2⟩ := hd
  have hd3 : d < 100 := by have := daysIn_le m y; omega
  have hday : ¬ (d < 1 ∨ d > time.daysIn m y) := by omega
  simp only [time.Parse, dateFormat, dateText, pad4, pad2, List.cons_append,
    List.nil_append, parse_year y hy, parse_lit '-' (by decide), parse_month m hm1 hm2,
    parse_day d hd3, parse_end, Option.getD_some, hday, if_false]

theorem match_dateTime (y m d h mi s : Nat) :
    regexp.MatchString dateTimeRegexp (dateText y m d ++ ' ' :: clockText h mi s) = true := by
  simp [dateTimeRegexp, dateText, clockText, pad4, pad2, regexp.MatchString, isDigit_digit]

theorem match_date (y m d : Nat) :
    regexp.MatchString dateTimeRegexp (dateText y m d) = false
      ∧ regexp.MatchString dateRegexp (dateText y m d) = true := by
  simp [dateTimeRegexp, dateRegexp, dateText, pad4, pad2, regexp.MatchString, isDigit_digit]

theorem match_clock (h mi s : Nat) :
    regexp.MatchString dateTimeRegexp (clockText h mi s) = false
      ∧ regexp.MatchString dateRegexp (clockText h mi s) = false
      ∧ regexp.MatchString timeRegexp (clockText h mi s) = true := by
  have : IsDigit ':' = false := by decide
  simp [dateTimeRegexp, dateRegexp, timeRegexp, clockText, pad2, regexp.MatchString,
    isDigit_digit, this]

/-- C2. For every valid date and time of day, the Timestamp binding of the text
`YYYY-MM-DD HH:MM:SS` is that instant, of `YYYY-MM-DD` midnight of that date, and of
`HH:MM:SS` that time on the date the clock gives; the three expressions are tried in this
order, the listed texts bind as listed, and `not-a-time` ends the process with status 1. -/
theorem timestamp_binding (today : Str) (y m d h mi s : Nat) (hd : validDate y m d)
    (hc : validClock h mi s) (ny nm nd : Nat) (hn : validDate ny nm nd) :
    bindTime today (dateText y m d ++ ' ' :: clockText h mi s) = Bound.set ⟨y, m, d, h, mi, s, 0⟩
      ∧ bindTime today (dateText y m d) = Bound.set ⟨y, m, d, 0, 0, 0, 0⟩
      ∧ bindTime (dateText ny nm nd) (clockText h mi s) = Bound.set ⟨ny, nm, nd, h, mi, s, 0⟩
      ∧ bindTime today "2023-05-01 10:00:00".data = Bound.set ⟨2023, 5, 1, 10, 0, 0, 0⟩
      ∧ bindTime today "2023-05-01".data = Bound.set ⟨2023, 5, 1, 0, 0, 0, 0⟩
      ∧ bindTime (dateText ny nm nd) "10:00:00".data = Bound.set ⟨ny, nm, nd, 10, 0, 0, 0⟩
      ∧ bindTime today "not-a-time".data = Bound.exit 1 := by
  have t1 : strings.TrimSpace (dateText y m d ++ ' ' :: clockText h mi s)
      = dateText y m d ++ ' ' :: clockText h mi s :=
    trimSpace_digits (y / 1000) s
      (digit (y / 100) :: digit (y / 10) :: digit y :: '-' :: digit (m / 10) :: digit m :: '-'
        :: digit (d / 10) :: digit d :: ' ' :: digit (h / 10) :: digit h :: ':'
        :: digit (mi / 10) :: digit mi :: ':' :: [digit (s / 10)])
  have t2 : strings.TrimSpace (dateText y m d) = dateText y m d :=
    trimSpace_digits (y / 1000) d
      (digit (y / 100) :: digit (y / 10) :: digit y :: '-' :: digit (m / 10) :: digit m :: '-'
        :: [digit (d / 10)])
  have t3 : ∀ h mi s : Nat, strings.TrimSpace (clockText h mi s) = clockText h mi s :=
    fun h mi s => trimSpace_digits (h / 10) s
      (digit h :: ':' :: digit (mi / 10) :: digit mi :: ':' :: [digit (s / 10)])
  have hclock : ∀ h mi s : Nat, validClock h mi s →
      bindTime (dateText ny nm nd) (clockText h mi s) = Bound.set ⟨ny, nm, nd, h, mi, s, 0⟩ := by
    intro h mi s hc
    have : dateText ny nm nd ++ [' '] ++ clockText h mi s
        = dateText ny nm nd ++ ' ' :: clockText h mi s := by simp
    simp only [bindTime, t3, match_clock, if_true, Bool.false_eq_true, if_false, parseTime, this,
      parse_dateTime ny nm nd h mi s hn hc]
  refine ⟨?_, ?_, hclock h mi s hc, rfl, rfl, hclock 10 0 0 (by decide), rfl⟩
  · simp only [bindTime, t1, match_dateTime, if_true, parseTime, parse_dateTime y m d h mi s hd hc]
  · simp only [bindTime, t2, match_date, if_true, Bool.false_eq_true, if_false, parseTime,
      parse_date y m d hd]

theorem timestamp_binding_witness :
    validDate 2024 2 29 ∧ validClock 23 59 59 ∧ validDate 1999 12 31
      ∧ bindTime "1999-12-31".data "2024-02-29 23:59:59".data
          = Bound.set ⟨2024, 2, 29, 23, 59, 59, 0⟩
      ∧ bindTime "1999-12-31".data "2024-02-29".data = Bound.set ⟨2024, 2, 29, 0, 0, 0, 0⟩
      ∧ bindTime "1999-12-31".data "23:59:59".data = Bound.set ⟨1999, 12, 31, 23, 59, 59, 0⟩ :=
  have h := timestamp_binding "1999-12-31".data 2024 2 29 23 59 59 (by decide) (by decide)
    1999 12 31 (by decide)
  ⟨by decide, by decide, by decide, h.1, h.2.1, h.2.2.1⟩

/-- C1, the code on malformed timestamps. A text of the right digit shape that names no
calendar date or time of day (month 13, February 30, hour 25) passes the regular expression;
`parseTime` drops the error of `time.Parse`, so the zero time is stored in the field (one
with an exported name, such as `Since`: on any other the scan panics before it reads the
text) and the process goes on. -/
theorem malformed_timestamp_stored :
    (∀ today : Str, bindTime today "2023-13-01 10:00:00".data = Bound.set time.zero)
      ∧ (∀ today : Str, bindTime today "2023-02-30".data = Bound.set time.zero)
      ∧ (∀ today : Str, bindTime today "2023-05-01 25:00:00".data = Bound.set time.zero)
      ∧ bindTime "2024-01-02".data "25:00:00".data = Bound.set time.zero
      ∧ (∀ (clock : Nat → Str) (st : PostState) (name : Str) (tag : Tag) (old : time.Time)
          (pfx : Str), IsExported name = true →
          postConfigField
              { String := fun _ => "2023-02-30".data, Duration := fun _ => 0,
                StringSlice := fun _ => [], Int := fun _ => 0, Bool := fun _ => false }
              clock st (Field.mk name tag (Value.time old)) pfx
            = Except.ok
                ({ flatConfig := st.flatConfig ++
                    [⟨dash (rawFlagName pfx name tag).1, ItemValue.string "2023-02-30".data⟩],
                   timeFields := st.timeFields + 1 },
                 Field.mk name tag (Value.time time.zero)))
      ∧ postConfigField
            { String := fun _ => "2023-02-30".data, Duration := fun _ => 0,
              StringSlice := fun _ => [], Int := fun _ => 0, Bool := fun _ => false }
            (fun _ => "2024-01-02".data) {}
            (Field.mk "Since".data {} (Value.time ⟨2023, 5, 1, 10, 0, 0, 0⟩)) []
          = Except.ok
              ({ flatConfig := [⟨"since".data, ItemValue.string "2023-02-30".data⟩],
                 timeFields := 1 },
               Field.mk "Since".data {} (Value.time time.zero)) := by
  refine ⟨fun _ => rfl, fun _ => rfl, fun _ => rfl, by decide, ?_, rfl⟩
  intro clock st name tag old pfx hexp
  have hb : bindTime (clock st.timeFields) "2023-02-30".data = Bound.set time.zero := rfl
  simp only [postConfigField, hb, hexp, if_true]

mutual
theorem pre_field_keys : ∀ (f : Field) (b : Builder) (pfx : Str),
    ∃ l, l <+: depthFirstFieldKeys f pfx
      ∧ (preConfigField b f pfx).1.configStructure.map MapItem.Key
        = b.configStructure.map MapItem.Key ++ l
      ∧ (preConfigField b f pfx).1.Flags.map Flag.Name = b.Flags.map Flag.Name ++ l
      ∧ ((preConfigField b f pfx).2 = none → l = depthFirstFieldKeys f pfx)
  | Field.mk name tag (Value.struct fields), b, pfx => by
    have ih := pre_fields_keys fields b (dash (rawFlagName pfx name tag).1)
    cases hex : IsExported name with
    | true => simpa only [preConfigField, depthFirstFieldKeys, hex, if_true] using ih
    | false => exact ⟨[], List.nil_prefix, by simp [preConfigField, hex]⟩
  | Field.mk _ _ Value.other, b, pfx =>
    ⟨[], List.nil_prefix, by simp [preConfigField, depthFirstFieldKeys]⟩
  | Field.mk name _ (Value.int64 _), b, pfx => by
    cases hex : IsExported name <;>
      exact ⟨[], List.nil_prefix, by simp [preConfigField, depthFirstFieldKeys, hex]⟩
  | Field.mk name tag (Value.int _), b, pfx =>
    ⟨_, List.prefix_refl _, by simp [preConfigField, depthFirstFieldKeys]⟩
  | Field.mk name tag (Value.string _), b, pfx =>
    ⟨_, List.prefix_refl _, by simp [preConfigField, depthFirstFieldKeys]⟩
  | Field.mk name tag (Value.bool _), b, pfx =>
    ⟨_, List.prefix_refl _, by simp [preConfigField, depthFirstFieldKeys]⟩
  | Field.mk name tag (Value.slice _), b, pfx =>
    ⟨_, List.prefix_refl _, by simp [preConfigField, depthFirstFieldKeys]⟩
  | Field.mk name tag (Value.duration _), b, pfx => by
    cases hex : IsExported name with
    | true =>
      exact ⟨_, List.prefix_refl _, by simp [preConfigField, depthFirstFieldKeys, hex]⟩
    | false =>
      exact ⟨[], List.nil_prefix, by simp [preConfigField, hex]⟩
  | Field.mk name tag (Value.time _), b, pfx => by
    cases hex : IsExported name with
    | true =>
      exact ⟨_, List.prefix_refl _, by simp [preConfigField, depthFirstFieldKeys, hex]⟩
    | false =>
      exact ⟨[], List.nil_prefix, by simp [preConfigField, hex]⟩
theorem pre_fields_keys : ∀ (fs : List Field) (b : Builder) (pfx : Str),
    ∃ l, l <+: depthFirstKeys fs pfx
      ∧ (preConfigRecursiveScan b fs pfx).1.configStructure.map MapItem.Key
        = b.configStructure.map MapItem.Key ++ l
      ∧ (preConfigRecursiveScan b fs pfx).1.Flags.map Flag.Name = b.Flags.map Flag.Name ++ l
      ∧ ((preConfigRecursiveScan b fs pfx).2 = none → l = depthFirstKeys fs pfx)
  | [], b, pfx => ⟨[], List.nil_prefix, by simp [preConfigRecursiveScan, depthFirstKeys]⟩
  | f :: fs, b, pfx => by
    obtain ⟨l1, hp1, hc1, hf1, hn1⟩ := pre_field_keys f b pfx
    cases hpre : preConfigField b f pfx with
    | mk b1 o =>
      rw [hpre] at hc1 hf1 hn1
      cases o with
      | some status =>
        refine ⟨l1, ?_, ?_⟩
        · rw [depthFirstKeys]
          exact hp1.trans (List.prefix_append _ _)
        · simp only [preConfigRecursiveScan, hpre]
          exact ⟨hc1, hf1, fun h => by cases h⟩
      | none =>
        obtain ⟨l2, hp2, hc2, hf2, hn2⟩ := pre_fields_keys fs b1 pfx
        have e1 := hn1 rfl
        refine ⟨l1 ++ l2, ?_, ?_⟩
        · rw [depthFirstKeys, e1]
          exact (List.prefix_append_right_inj _).mpr hp2
        · simp only [preConfigRecursiveScan, hpre]
          refine ⟨?_, ?_, ?_⟩
          · rw [hc2, hc1, List.append_assoc]
          · rw [hf2, hf1, List.append_assoc]
          · intro h
            rw [hn2 h, depthFirstKeys, e1]
end

mutual
theorem post_field_keys : ∀ (f : Field) (c : Context) (clock : Nat → Str) (st : PostState)
    (pfx : Str) (st1 : PostState) (f1 : Field),
    postConfigField c clock st f pfx = Except.ok (st1, f1) →
    st1.flatConfig.map MapItem.Key = st.flatConfig.map MapItem.Key ++ depthFirstFieldKeys f pfx
      ∧ ∀ b : Builder, (preConfigField b f pfx).2 = none
  | Field.mk name tag (Value.struct fields), c, clock, st, pfx, st1, f1 => by
    intro h
    cases hex : IsExported name with
    | false => simp [postConfigField, hex] at h
    | true =>
      simp only [postConfigField, hex, if_true] at h
      split at h
      · rename_i st2 fields1 heq
        simp only [Except.ok.injEq, Prod.mk.injEq] at h
        rw [← h.1]
        simpa only [depthFirstFieldKeys, preConfigField, hex, if_true] using
          post_fields_keys fields c clock st (dash (rawFlagName pfx name tag).1) st2 fields1 heq
      · cases h
  | Field.mk _ _ Value.other, c, clock, st, pfx, st1, f1 => by
    intro h
    simp only [postConfigField, Except.ok.injEq, Prod.mk.injEq] at h
    simp [← h.1, depthFirstFieldKeys, preConfigField]
  | Field.mk name tag (Value.int64 _), c, clock, st, pfx, st1, f1 => by
    intro h
    cases hex : IsExported name with
    | false => simp [postConfigField, hex] at h
    | true =>
      simp only [postConfigField, hex, if_true, Except.ok.injEq, Prod.mk.injEq] at h
      simp [← h.1, depthFirstFieldKeys, preConfigField, hex]
  | Field.mk name tag (Value.int _), c, clock, st, pfx, st1, f1 => by
    intro h
    cases hex : IsExported name with
    | false => simp [postConfigField, hex] at h
    | true =>
      simp only [postConfigField, hex, if_true, Except.ok.injEq, Prod.mk.injEq] at h
      simp [← h.1, depthFirstFieldKeys, preConfigField]
  | Field.mk name tag (Value.string _), c, clock, st, pfx, st1, f1 => by
    intro h
    cases hex : IsExported name with
    | false => simp [postConfigField, hex] at h
    | true =>
      simp only [postConfigField, hex, if_true, Except.ok.injEq, Prod.mk.injEq] at h
      simp [← h.1, depthFirstFieldKeys, preConfigField]
  | Field.mk name tag (Value.bool _), c, clock, st, pfx, st1, f1 => by
    intro h
    cases hex : IsExported name with
    | false => simp [postConfigField, hex] at h
    | true =>
      simp only [postConfigField, hex, if_true, Except.ok.injEq, Prod.mk.injEq] at h
      simp [← h.1, depthFirstFieldKeys, preConfigField]
  | Field.mk name tag (Value.duration _), c, clock, st, pfx, st1, f1 => by
    intro h
    cases hex : IsExported name with
    | false => simp [postConfigField, hex] at h
    | true =>
      simp only [postConfigField, hex, if_true, Except.ok.injEq, Prod.mk.injEq] at h
      simp [← h.1, depthFirstFieldKeys, preConfigField, hex]
  | Field.mk name tag (Value.slice _), c, clock, st, pfx, st1, f1 => by
    intro h
    cases hex : IsExported name with
    | false => simp [postConfigField, hex] at h
    | true =>
      simp only [postConfigField, hex, if_true, Except.ok.injEq, Prod.mk.injEq] at h
      simp [← h.1, depthFirstFieldKeys, preConfigField]
  | Field.mk name tag (Value.time _), c, clock, st, pfx, st1, f1 => by
    intro h
    cases hex : IsExported name with
    | false => simp [postConfigField, hex] at h
    | true =>
      simp only [postConfigField, hex, if_true] at h
      split at h
      · simp only [Except.ok.injEq, Prod.mk.injEq] at h
        simp [← h.1, depthFirstFieldKeys, preConfigField, hex]
      · cases h
theorem post_fields_keys : ∀ (fs : List Field) (c : Context) (clock : Nat → Str)
    (st : PostState) (pfx : Str) (st1 : PostState) (fs1 : List Field),
    postConfigRecursiveScan c clock st fs pfx = Except.ok (st1, fs1) →
    st1.flatConfig.map MapItem.Key = st.flatConfig.map MapItem.Key ++ depthFirstKeys fs pfx
      ∧ ∀ b : Builder, (preConfigRecursiveScan b fs pfx).2 = none
  | [], c, clock, st, pfx, st1, fs1 => by
    intro h
    simp only [postConfigRecursiveScan, Except.ok.injEq, Prod.mk.injEq] at h
    simp [← h.1, depthFirstKeys, preConfigRecursiveScan]
  | f :: fs, c, clock, st, pfx, st1, fs1 => by
    intro h
    simp only [postConfigRecursiveScan] at h
    split at h
    · cases h
    · rename_i st2 f2 heq
      split at h
      · cases h
      · rename_i st3 fs3 heq2
        simp only [Except.ok.injEq, Prod.mk.injEq] at h
        have h1 := post_field_keys f c clock st pfx st2 f2 heq
        have h2 := post_fields_keys fs c clock st2 pfx st3 fs3 heq2
        refine ⟨?_, ?_⟩
        · rw [← h.1, h2.1, h1.1]
          simp [depthFirstKeys]
        · intro b
          have h3 := h1.2 b
          cases hpre : preConfigField b f pfx with
          | mk b1 o =>
            rw [hpre] at h3
            simp only at h3
            subst h3
            simp only [preConfigRecursiveScan, hpre]
            exact h2.2 b1
end

/-- C9. When binding does not end the process, the keys of the flat snapshot that
`postConfigRecursiveScan` builds are the keys of the baseline that `preConfigRecursiveScan`
builds for the same record, and both are the flat names of the scalar fields in depth-first
declaration order; on such a record `preConfigRecursiveScan` has run to its end. -/
theorem flat_keys_agree (c : Context) (clock : Nat → Str) (fs : List Field) (st1 : PostState)
    (fs1 : List Field)
    (h : postConfigRecursiveScan c clock {} fs [] = Except.ok (st1, fs1)) :
    st1.flatConfig.map MapItem.Key
        = (preConfigRecursiveScan {} fs []).1.configStructure.map MapItem.Key
      ∧ (preConfigRecursiveScan {} fs []).1.configStructure.map MapItem.Key
        = depthFirstKeys fs []
      ∧ st1.flatConfig.map MapItem.Key = depthFirstKeys fs []
      ∧ (preConfigRecursiveScan {} fs []).2 = none := by
  obtain ⟨h1, hn⟩ := post_fields_keys fs c clock {} [] st1 fs1 h
  obtain ⟨l, _, h2, _, hl⟩ := pre_fields_keys fs {} []
  rw [hl (hn {})] at h2
  simp only [List.map_nil, List.nil_append] at h1 h2
  exact ⟨h1.trans h2.symm, h2, h1, hn {}⟩

theorem flat_keys_agree_witness :
    postConfigRecursiveScan sampleContext (fun _ => "2024-01-02".data) {} sampleRecord []
        = Except.ok
          ({ flatConfig :=
              [⟨"foo-bar".data, ItemValue.int 7⟩,
               ⟨"server-host".data, ItemValue.string "10:00:00".data⟩,
               ⟨"server-since".data, ItemValue.string "10:00:00".data⟩,
               ⟨"server-tag".data, ItemValue.string "a,b,c".data⟩,
               ⟨"wait".data, ItemValue.string "1m30s".data⟩],
             timeFields := 1 },
           [Field.mk "FooBar".data {} (Value.int 7),
            Field.mk "Server".data {}
              (Value.struct
                [Field.mk "Host".data {} (Value.string "10:00:00".data),
                 Field.mk "Since".data {} (Value.time ⟨2024, 1, 2, 10, 0, 0, 0⟩),
                 Field.mk "Tags".data { flag := some "tag, t".data }
                   (Value.slice ["a".data, "b".data, "c".data])]),
            Field.mk "Wait".data {} (Value.duration 90000000000)])
      ∧ (preConfigRecursiveScan {} sampleRecord []).1.configStructure.map MapItem.Key
        = ["foo-bar".data, "server-host".data, "server-since".data, "server-tag".data,
           "wait".data] :=
  ⟨rfl,
   ((flat_keys_agree sampleContext (fun _ => "2024-01-02".data) sampleRecord _ _ rfl).1).symm.trans
     rfl⟩

theorem rawFlagName_plain (pfx name : Str) (tag : Tag) (h : tag.flag = none) :
    (rawFlagName pfx name tag).1 = if pfx.length > 0 then pfx ++ '-' :: name else name := by
  simp [rawFlagName, aliases, h]

theorem split_append_sep (a b : Str) (sep : Char) :
    strings.Split (a ++ sep :: b) sep = strings.Split a sep ++ strings.Split b sep := by
  induction a with
  | nil => simp [strings.Split]
  | cons x a ih =>
    rw [List.cons_append]
    simp only [strings.Split]
    rw [ih]
    split
    · rfl
    · cases hsp : strings.Split a sep with
      | nil => exact absurd hsp (split_ne_nil a sep)
      | cons p ps => rfl

theorem dashParts_append (l1 l2 : List Str) (acc : Str) :
    dashParts (l1 ++ l2) acc = dashParts l2 (dashParts l1 acc) := by
  induction l1 generalizing acc with
  | nil => rfl
  | cons p ps ih =>
    rw [List.cons_append]
    simp only [dashParts]
    rw [ih]

theorem hasDoubleHyphen_append (u v : Str) :
    hasDoubleHyphen (u ++ v)
      = (hasDoubleHyphen u || hasDoubleHyphen v
          || (u.getLast? == some '-' && v.head? == some '-')) := by
  induction u with
  | nil => simp [hasDoubleHyphen]
  | cons a u ih =>
    cases u with
    | nil =>
      cases v with
      | nil => simp [hasDoubleHyphen]
      | cons b v =>
        simp only [List.singleton_append, hasDoubleHyphen, List.getLast?_singleton,
          List.head?_cons, Bool.false_or]
        by_cases ha : a = '-' <;> by_cases hb : b = '-' <;> simp [ha, hb, Bool.or_comm]
    | cons b u =>
      have : hasDoubleHyphen (a :: b :: u ++ v)
          = ((a == '-' && b == '-') || hasDoubleHyphen (b :: u ++ v)) := rfl
      rw [this, ih]
      have h2 : hasDoubleHyphen (a :: b :: u)
          = ((a == '-' && b == '-') || hasDoubleHyphen (b :: u)) := rfl
      rw [h2, List.getLast?_cons_cons]
      simp only [Bool.or_assoc]

theorem replaceAll_dd_append (u v : Str) (hdd : hasDoubleHyphen u = false)
    (hlast : u.getLast? ≠ some '-') :
    strings.ReplaceAll (u ++ v) ['-', '-'] ['-'] = u ++ strings.ReplaceAll v ['-', '-'] ['-'] := by
  induction u with
  | nil => rfl
  | cons a u ih =>
    cases u with
    | nil =>
      have ha : a ≠ '-' := by simpa using hlast
      cases v with
      | nil => simp [replaceAll_dd_single, replaceAll_dd_nil]
      | cons b v =>
        rw [List.singleton_append, replaceAll_dd_miss a b v (fun h => ha h.1)]
        rfl
    | cons b u =>
      have h2 : hasDoubleHyphen (a :: b :: u)
          = ((a == '-' && b == '-') || hasDoubleHyphen (b :: u)) := rfl
      rw [h2, Bool.or_eq_false_iff] at hdd
      have hab : ¬ (a = '-' ∧ b = '-') := by
        intro h
        have := hdd.1
        simp [h.1, h.2] at this
      rw [List.getLast?_cons_cons] at hlast
      rw [List.cons_append, List.cons_append, replaceAll_dd_miss a b (u ++ v) hab,
        ← List.cons_append, ih hdd.2 hlast]
      rfl

theorem segOut_last (first : Bool) (prev : Char) (s : Str) (h : '-' ∉ s) :
    (segOut first prev s).getLast? ≠ some '-' := by
  induction s generalizing first prev with
  | nil => simp [segOut]
  | cons c rest ih =>
    simp only [List.mem_cons, not_or] at h
    have hc : ToLower c ≠ '-' := toLower_ne_hyphen c (fun e => h.1 e.symm)
    have ih2 := ih false c h.2
    simp only [segOut, List.getLast?_append, List.getLast?_cons]
    cases hl : (segOut false c rest).getLast? with
    | none => simpa using hc
    | some x =>
      rw [hl] at ih2
      simpa using ih2

theorem kebab_dash (c : Str) (hne : c ≠ []) (hc : c.all isAlnum = true) : Kebab (dash c) := by
  have hno := alnum_no_hyphen c hc
  rw [dash_eq_segOut c hno]
  refine ⟨?_, segOut_chars true rune0 c hc, segOut_head rune0 c hno, segOut_last true rune0 c hno,
    segOut_noDouble true rune0 c hno⟩
  cases c with
  | nil => exact absurd rfl hne
  | cons a rest => simp [segOut]

theorem kebab_join (p k : Str) (hp : Kebab p) (hk : Kebab k) : Kebab (p ++ '-' :: k) := by
  obtain ⟨hp1, hp2, hp3, hp4, hp5⟩ := hp
  obtain ⟨hk1, hk2, hk3, hk4, hk5⟩ := hk
  refine ⟨by simp, ?_, ?_, ?_, ?_⟩
  · intro c hc
    simp only [List.mem_append, List.mem_cons] at hc
    rcases hc with hc | hc | hc
    · exact hp2 c hc
    · exact Or.inr (Or.inr hc)
    · exact hk2 c hc
  · cases p with
    | nil => exact absurd rfl hp1
    | cons a p => simpa using hp3
  · cases k with
    | nil => exact absurd rfl hk1
    | cons a k =>
      rw [List.getLast?_append, List.getLast?_cons_cons]
      cases hl : (a :: k).getLast? with
      | none => simp at hl
      | some x =>
        rw [hl] at hk4
        simpa using hk4
  · rw [hasDoubleHyphen_append, hp5]
    cases k with
    | nil => exact absurd rfl hk1
    | cons a k =>
      have ha : a ≠ '-' := by simpa using hk3
      rw [hasDoubleHyphen_cons_cons_ne _ _ _ ha, ← hasDoubleHyphen_cons_ne a k ha, hk5]
      cases hl : p.getLast? with
      | none => simp
      | some x =>
        rw [hl] at hp4
        have : x ≠ '-' := by simpa using hp4
        simp [this]

theorem dash_prefixed (p c : Str) (hp : Kebab p) (hne : c ≠ []) (hc : c.all isAlnum = true) :
    dash (p ++ '-' :: c) = p ++ '-' :: dash c := by
  obtain ⟨hp1, hp2, hp3, hp4, hp5⟩ := hp
  have hno := alnum_no_hyphen c hc
  have hlow : ∀ x ∈ p, IsUpper x = false := fun x hx => kebabChar_not_upper x (hp2 x hx)
  have hk := kebab_dash c hne hc
  have hd := dash_eq_segOut c hno
  rw [hd] at hk ⊢
  obtain ⟨hk1, hk2, hk3, hk4, hk5⟩ := hk
  have hlen : p.length > 0 := List.length_pos.mpr hp1
  have hemp : (p ++ ['-']).isEmpty = false := by cases p <;> simp
  have hraw : dashParts (strings.Split (p ++ '-' :: c) '-') []
      = p ++ '-' :: segOut false rune0 c := by
    rw [split_append_sep, split_no_sep c '-' hno, dashParts_append,
      dashParts_split_lower p hlow hp3]
    simp only [dashParts, hlen, if_true, dashSegment_eq, hemp, List.append_assoc,
      List.singleton_append]
  rw [dash, hraw]
  cases c with
  | nil => exact absurd rfl hne
  | cons a rest =>
    have ha : ToLower a ≠ '-' := toLower_ne_hyphen a (fun e => hno (e ▸ List.mem_cons_self _ _))
    have hstep : segOut false rune0 (a :: rest)
        = (if hyphenCond rune0 a (rest.headD rune0) then ['-'] else [])
            ++ segOut true rune0 (a :: rest) := by
      simp [segOut]
    rw [hstep, replaceAll_dd_append p _ hp5 hp4]
    congr 1
    split
    · rw [List.singleton_append, replaceAll_dd_hit, replaceAll_dd_id _ hk5]
    · rw [List.nil_append]
      apply replaceAll_dd_id
      have : segOut true rune0 (a :: rest) = ToLower a :: segOut false a rest := by
        simp [segOut]
      rw [this] at hk5 ⊢
      rw [hasDoubleHyphen_cons_cons_ne _ _ _ ha, ← hasDoubleHyphen_cons_ne _ _ ha, hk5]

theorem pathFlagName_concat (path : List Str) (n : Str) :
    pathFlagName (path ++ [n]) = dash (rawFlagName (pathFlagName path) n {}).1 := by
  simp [pathFlagName, List.foldl_append]

theorem pathFlagName_step (path : List Str) (n : Str) (hn : n ≠ []) (hal : n.all isAlnum = true)
    (hk : path = [] ∨ Kebab (pathFlagName path)) :
    pathFlagName (path ++ [n])
      = (if path = [] then dash n else pathFlagName path ++ '-' :: dash n)
      ∧ Kebab (pathFlagName (path ++ [n])) := by
  rw [pathFlagName_concat, rawFlagName_plain _ _ _ rfl]
  by_cases hp : path = []
  · subst hp
    simp only [pathFlagName, List.foldl_nil, List.length_nil, gt_iff_lt, lt_self_iff_false,
      if_false, if_true]
    exact ⟨trivial, kebab_dash n hn hal⟩
  · have hkb : Kebab (pathFlagName path) := hk.resolve_left hp
    have hlen : (pathFlagName path).length > 0 := List.length_pos.mpr hkb.1
    simp only [hlen, if_true, hp, if_false, dash_prefixed _ n hkb hn hal, true_and]
    exact kebab_join _ _ hkb (kebab_dash n hn hal)

theorem kebab_path (path : List Str) (hne : path ≠ [])
    (hnames : ∀ n ∈ path, n ≠ [] ∧ n.all isAlnum = true) : Kebab (pathFlagName path) := by
  induction path using List.reverseRecOn with
  | nil => exact absurd rfl hne
  | append_singleton p n ih =>
    have hn := hnames n (by simp)
    apply (pathFlagName_step p n hn.1 hn.2 _).2
    by_cases hp : p = []
    · exact Or.inl hp
    · exact Or.inr (ih hp (fun m hm => hnames m (by simp [hm])))

theorem depthFirstKeys_scalar (children : List Field) (p : Str)
    (h : ∀ ch ∈ children, ch.value.isScalar = true) :
    depthFirstKeys children p
      = children.map (fun ch => dash (rawFlagName p ch.name ch.tag).1) := by
  induction children with
  | nil => simp [depthFirstKeys]
  | cons f fs ih =>
    have hf := h f (List.mem_cons_self _ _)
    rw [depthFirstKeys, ih (fun ch hch => h ch (List.mem_cons_of_mem _ hch)), List.map_cons]
    cases f with
    | mk name tag value =>
      cases value with
      | struct _ => simp [Field.value, Value.isScalar] at hf
      | other => simp [Field.value, Value.isScalar] at hf
      | int64 _ => simp [Field.value, Value.isScalar] at hf
      | _ => simp [depthFirstFieldKeys, Field.name, Field.tag]

theorem depthFirstFieldKeys_scalar (ch : Field) (p : Str) (h : ch.value.isScalar = true) :
    depthFirstFieldKeys ch p = [dash (rawFlagName p ch.name ch.tag).1] := by
  cases ch with
  | mk name tag value =>
    cases value with
    | struct _ => simp [Field.value, Value.isScalar] at h
    | other => simp [Field.value, Value.isScalar] at h
    | int64 _ => simp [Field.value, Value.isScalar] at h
    | _ => simp [depthFirstFieldKeys, Field.name, Field.tag]

theorem exported_ne_nil (name : Str) (h : IsExported name = true) : name ≠ [] := by
  intro e
  subst e
  simp [IsExported] at h

/-- C7. Let a nested record field with an exported ASCII alphanumeric name and no `flag` tag
lie under enclosing records with such names, and let `P` be the flag name the scan derives
for it.  For every field of the nested record that has a non-empty ASCII alphanumeric name
and no `flag` tag, whatever its siblings, the flag name derived for it is `P`, one hyphen,
`dash` of its own name; when the field is scalar and the loop body does not panic on it,
this is the name of the one flag and the key of the one flat entry that the body adds for
it.  The scan of the nested record field is the scan of its fields under `P` from the same
builder: the record itself adds no flag and no flat entry.  So when its fields are scalar
and the scan runs to its end, the names of the flags and the keys of the flat entries added
are those derived for its fields, in order: `P`, one hyphen, `dash` of its own name for each
field with such a name and no tag. -/
theorem nested_flag_names (path : List Str)
    (hpath : ∀ n ∈ path, n.all isAlnum = true ∧ IsExported n = true)
    (name : Str) (hnal : name.all isAlnum = true) (hexp : IsExported name = true)
    (tag : Tag) (htag : tag.flag = none) (children : List Field) (b : Builder) :
    (∀ ch ∈ children, ch.plainName = true →
        dash (rawFlagName (dash (rawFlagName (pathFlagName path) name tag).1) ch.name ch.tag).1
          = dash (rawFlagName (pathFlagName path) name tag).1 ++ '-' :: dash ch.name)
      ∧ (∀ ch ∈ children, ch.plainName = true → ch.value.isScalar = true →
          ∀ b1 : Builder,
            (preConfigField b1 ch (dash (rawFlagName (pathFlagName path) name tag).1)).2 = none →
            (preConfigField b1 ch
                (dash (rawFlagName (pathFlagName path) name tag).1)).1.Flags.map Flag.Name
              = b1.Flags.map Flag.Name
                ++ [dash (rawFlagName (pathFlagName path) name tag).1 ++ '-' :: dash ch.name]
            ∧ (preConfigField b1 ch
                (dash (rawFlagName (pathFlagName path) name tag).1)).1.configStructure.map
                  MapItem.Key
              = b1.configStructure.map MapItem.Key
                ++ [dash (rawFlagName (pathFlagName path) name tag).1 ++ '-' :: dash ch.name])
      ∧ preConfigField b (Field.mk name tag (Value.struct children)) (pathFlagName path)
          = preConfigRecursiveScan b children (dash (rawFlagName (pathFlagName path) name tag).1)
      ∧ ((preConfigField b (Field.mk name tag (Value.struct children)) (pathFlagName path)).2
            = none →
          (∀ ch ∈ children, ch.value.isScalar = true) →
          (preConfigField b (Field.mk name tag (Value.struct children))
              (pathFlagName path)).1.Flags.map Flag.Name
            = b.Flags.map Flag.Name ++ children.map (fun ch =>
                if ch.plainName then
                  dash (rawFlagName (pathFlagName path) name tag).1 ++ '-' :: dash ch.name
                else
                  dash (rawFlagName (dash (rawFlagName (pathFlagName path) name tag).1)
                    ch.name ch.tag).1)
          ∧ (preConfigField b (Field.mk name tag (Value.struct children))
              (pathFlagName path)).1.configStructure.map MapItem.Key
            = b.configStructure.map MapItem.Key ++ children.map (fun ch =>
                if ch.plainName then
                  dash (rawFlagName (pathFlagName path) name tag).1 ++ '-' :: dash ch.name
                else
                  dash (rawFlagName (dash (rawFlagName (pathFlagName path) name tag).1)
                    ch.name ch.tag).1)) := by
  have hP : dash (rawFlagName (pathFlagName path) name tag).1 = pathFlagName (path ++ [name]) := by
    rw [pathFlagName_concat, rawFlagName_plain _ _ _ htag, rawFlagName_plain _ _ _ rfl]
  have hk : Kebab (pathFlagName (path ++ [name])) :=
    kebab_path _ (by simp) (by
      intro n hn
      simp only [List.mem_append, List.mem_singleton] at hn
      rcases hn with hn | hn
      · exact ⟨exported_ne_nil n (hpath n hn).2, (hpath n hn).1⟩
      · subst hn; exact ⟨exported_ne_nil n hexp, hnal⟩)
  rw [hP]
  have h1 : ∀ ch ∈ children, ch.plainName = true →
      dash (rawFlagName (pathFlagName (path ++ [name])) ch.name ch.tag).1
        = pathFlagName (path ++ [name]) ++ '-' :: dash ch.name := by
    intro ch _ hpl
    simp only [Field.plainName, Bool.and_eq_true, Bool.not_eq_true', List.isEmpty_eq_false,
      Option.isNone_iff_eq_none] at hpl
    have hlen : (pathFlagName (path ++ [name])).length > 0 := List.length_pos.mpr hk.1
    rw [rawFlagName_plain _ _ _ hpl.2]
    simp only [hlen, if_true]
    exact dash_prefixed _ _ hk (by simpa using hpl.1.1) hpl.1.2
  have h2 : preConfigField b (Field.mk name tag (Value.struct children)) (pathFlagName path)
      = preConfigRecursiveScan b children (pathFlagName (path ++ [name])) := by
    rw [← hP]
    simp only [preConfigField, hexp, if_true]
  refine ⟨h1, ?_, h2, ?_⟩
  · intro ch hmem hpl hsc b1 hn
    obtain ⟨l, _, hc, hf, hl⟩ := pre_field_keys ch b1 (pathFlagName (path ++ [name]))
    rw [hc, hf, hl hn, depthFirstFieldKeys_scalar ch _ hsc, h1 ch hmem hpl]
    exact ⟨rfl, rfl⟩
  · intro hn hs
    obtain ⟨l, _, hc, hf, hl⟩ := pre_fields_keys children b (pathFlagName (path ++ [name]))
    rw [h2] at hn
    rw [h2, hc, hf, hl hn, depthFirstKeys_scalar children _ hs]
    have : children.map
          (fun ch => dash (rawFlagName (pathFlagName (path ++ [name])) ch.name ch.tag).1)
        = children.map (fun ch =>
            if ch.plainName then pathFlagName (path ++ [name]) ++ '-' :: dash ch.name
            else dash (rawFlagName (pathFlagName (path ++ [name])) ch.name ch.tag).1) := by
      apply List.map_congr_left
      intro ch hmem
      cases hpl : ch.plainName with
      | false => simp
      | true =>
        simp only [if_true]
        exact h1 ch hmem hpl
    rw [this]
    exact ⟨rfl, rfl⟩

theorem nested_flag_names_witness :
    (preConfigField {}
        (Field.mk "HTTPServer".data {}
          (Value.struct [Field.mk "HostName".data {} (Value.string "x".data),
            Field.mk "Tags".data { flag := some "tag, t".data } (Value.slice []),
            Field.mk "Port2".data {} (Value.int 80)]))
        (pathFlagName ["App".data])).1.configStructure.map MapItem.Key
      = ["app-http-server-host-name".data, "app-http-server-tag".data,
         "app-http-server-port2".data] :=
  ((nested_flag_names ["App".data] (by decide) "HTTPServer".data (by decide) (by decide) {} rfl
    [Field.mk "HostName".data {} (Value.string "x".data),
      Field.mk "Tags".data { flag := some "tag, t".data } (Value.slice []),
      Field.mk "Port2".data {} (Value.int 80)]
    {}).2.2.2 (by decide)
    (by
      intro ch hch
      simp only [List.mem_cons, List.mem_singleton, List.not_mem_nil, or_false] at hch
      rcases hch with h | h | h <;> subst h <;> rfl)).2.trans (by decide)

theorem rawFlagName_tag (pfx name : Str) (tag : Tag) (h : tag.flag = none) :
    (rawFlagName pfx name tag).1 = (rawFlagName pfx name {}).1 := by
  rw [rawFlagName_plain _ _ _ h, rawFlagName_plain _ _ _ rfl]

mutual
theorem field_keys_paths : ∀ (f : Field) (path : List Str), plainField f = true →
    depthFirstFieldKeys f (pathFlagName path)
      = (fieldScalarPaths f).map (fun p => pathFlagName (path ++ p))
  | Field.mk name tag (Value.struct fields), path, h => by
    simp only [plainField, Bool.and_eq_true, Option.isNone_iff_eq_none] at h
    have ih := fields_keys_paths fields (path ++ [name]) h.2
    simp only [depthFirstFieldKeys, fieldScalarPaths, List.map_map, rawFlagName_tag _ _ _ h.1.2,
      ← pathFlagName_concat, ih]
    apply List.map_congr_left
    intro p _
    simp
  | Field.mk _ _ Value.other, path, _ => by simp [depthFirstFieldKeys, fieldScalarPaths]
  | Field.mk _ _ (Value.int64 _), path, _ => by simp [depthFirstFieldKeys, fieldScalarPaths]
  | Field.mk name tag (Value.int _), path, h => by
    simp only [plainField, Bool.and_eq_true, Option.isNone_iff_eq_none] at h
    simp [depthFirstFieldKeys, fieldScalarPaths, rawFlagName_tag _ _ _ h.2, pathFlagName_concat]
  | Field.mk name tag (Value.string _), path, h => by
    simp only [plainField, Bool.and_eq_true, Option.isNone_iff_eq_none] at h
    simp [depthFirstFieldKeys, fieldScalarPaths, rawFlagName_tag _ _ _ h.2, pathFlagName_concat]
  | Field.mk name tag (Value.bool _), path, h => by
    simp only [plainField, Bool.and_eq_true, Option.isNone_iff_eq_none] at h
    simp [depthFirstFieldKeys, fieldScalarPaths, rawFlagName_tag _ _ _ h.2, pathFlagName_concat]
  | Field.mk name tag (Value.duration _), path, h => by
    simp only [plainField, Bool.and_eq_true, Option.isNone_iff_eq_none] at h
    simp [depthFirstFieldKeys, fieldScalarPaths, rawFlagName_tag _ _ _ h.2, pathFlagName_concat]
  | Field.mk name tag (Value.time _), path, h => by
    simp only [plainField, Bool.and_eq_true, Option.isNone_iff_eq_none] at h
    simp [depthFirstFieldKeys, fieldScalarPaths, rawFlagName_tag _ _ _ h.2, pathFlagName_concat]
  | Field.mk name tag (Value.slice _), path, h => by
    simp only [plainField, Bool.and_eq_true, Option.isNone_iff_eq_none] at h
    simp [depthFirstFieldKeys, fieldScalarPaths, rawFlagName_tag _ _ _ h.2, pathFlagName_concat]
theorem fields_keys_paths : ∀ (fs : List Field) (path : List Str), plainFields fs = true →
    depthFirstKeys fs (pathFlagName path)
      = (scalarPaths fs).map (fun p => pathFlagName (path ++ p))
  | [], path, _ => by simp [depthFirstKeys, scalarPaths]
  | f :: fs, path, h => by
    simp only [plainFields, Bool.and_eq_true] at h
    simp only [depthFirstKeys, scalarPaths, List.map_append, field_keys_paths f path h.1,
      fields_keys_paths fs path h.2]
end

mutual
theorem field_paths_plain : ∀ (f : Field), plainField f = true →
    ∀ p ∈ fieldScalarPaths f, p ≠ [] ∧ ∀ n ∈ p, n ≠ [] ∧ n.all isAlnum = true
  | Field.mk name tag (Value.struct fields), h => by
    simp only [plainField, Bool.and_eq_true, Option.isNone_iff_eq_none, Bool.not_eq_true',
      List.isEmpty_eq_false] at h
    have ih := fields_paths_plain fields h.2
    intro p hp
    simp only [fieldScalarPaths, List.mem_map] at hp
    obtain ⟨q, hq, rfl⟩ := hp
    refine ⟨by simp, ?_⟩
    intro n hn
    simp only [List.mem_cons] at hn
    rcases hn with hn | hn
    · subst hn
      exact ⟨by simpa using h.1.1.1, h.1.1.2⟩
    · exact (ih q hq).2 n hn
  | Field.mk _ _ Value.other, _ => by simp [fieldScalarPaths]
  | Field.mk _ _ (Value.int64 _), _ => by simp [fieldScalarPaths]
  | Field.mk name tag (Value.int _), h => by
    simp only [plainField, Bool.and_eq_true, Option.isNone_iff_eq_none, Bool.not_eq_true',
      List.isEmpty_eq_false] at h
    simpa [fieldScalarPaths] using h.1
  | Field.mk name tag (Value.string _), h => by
    simp only [plainField, Bool.and_eq_true, Option.isNone_iff_eq_none, Bool.not_eq_true',
      List.isEmpty_eq_false] at h
    simpa [fieldScalarPaths] using h.1
  | Field.mk name tag (Value.bool _), h => by
    simp only [plainField, Bool.and_eq_true, Option.isNone_iff_eq_none, Bool.not_eq_true',
      List.isEmpty_eq_false] at h
    simpa [fieldScalarPaths] using h.1
  | Field.mk name tag (Value.duration _), h => by
    simp only [plainField, Bool.and_eq_true, Option.isNone_iff_eq_none, Bool.not_eq_true',
      List.isEmpty_eq_false] at h
    simpa [fieldScalarPaths] using h.1
  | Field.mk name tag (Value.time _), h => by
    simp only [plainField, Bool.and_eq_true, Option.isNone_iff_eq_none, Bool.not_eq_true',
      List.isEmpty_eq_false] at h
    simpa [fieldScalarPaths] using h.1
  | Field.mk name tag (Value.slice _), h => by
    simp only [plainField, Bool.and_eq_true, Option.isNone_iff_eq_none, Bool.not_eq_true',
      List.isEmpty_eq_false] at h
    simpa [fieldScalarPaths] using h.1
theorem fields_paths_plain : ∀ (fs : List Field), plainFields fs = true →
    ∀ p ∈ scalarPaths fs, p ≠ [] ∧ ∀ n ∈ p, n ≠ [] ∧ n.all isAlnum = true
  | [], _ => by simp [scalarPaths]
  | f :: fs, h => by
    simp only [plainFields, Bool.and_eq_true] at h
    intro p hp
    simp only [scalarPaths, List.mem_append] at hp
    rcases hp with hp | hp
    · exact field_paths_plain f h.1 p hp
    · exact fields_paths_plain fs h.2 p hp
end

theorem segOut_strip (first : Bool) (prev : Char) (s : Str) (h : '-' ∉ s) :
    (segOut first prev s).filter (fun c => c != '-') = s.map ToLower := by
  induction s generalizing first prev with
  | nil => simp [segOut]
  | cons c rest ih =>
    simp only [List.mem_cons, not_or] at h
    have hc : ToLower c ≠ '-' := toLower_ne_hyphen c (fun e => h.1 e.symm)
    simp only [segOut, List.filter_append, List.map_cons]
    rw [List.filter_cons_of_pos (by simpa using hc), ih false c h.2]
    split <;> simp

theorem dash_strip (s : Str) (hs : s.all isAlnum = true) :
    (dash s).filter (fun c => c != '-') = strings.ToLower s := by
  rw [dash_eq_segOut s (alnum_no_hyphen s hs), segOut_strip _ _ _ (alnum_no_hyphen s hs)]
  rfl

theorem path_strip (path : List Str) (hnames : ∀ n ∈ path, n ≠ [] ∧ n.all isAlnum = true) :
    (pathFlagName path).filter (fun c => c != '-') = strings.ToLower path.flatten := by
  induction path using List.reverseRecOn with
  | nil => rfl
  | append_singleton p n ih =>
    have hn := hnames n (by simp)
    have hp : ∀ m ∈ p, m ≠ [] ∧ m.all isAlnum = true := fun m hm => hnames m (by simp [hm])
    have hk : p = [] ∨ Kebab (pathFlagName p) := by
      by_cases h : p = []
      · exact Or.inl h
      · exact Or.inr (kebab_path p h hp)
    rw [(pathFlagName_step p n hn.1 hn.2 hk).1]
    by_cases h : p = []
    · subst h
      simp only [if_true, List.nil_append, List.flatten_cons, List.flatten_nil, List.append_nil]
      exact dash_strip n hn.2
    · simp only [h, if_false, List.filter_append, List.flatten_append, List.flatten_cons,
        List.flatten_nil, List.append_nil, ih hp]
      rw [List.filter_cons_of_neg (by simp), dash_strip n hn.2]
      simp [strings.ToLower]

/-- C8, as amended. For every configuration record whose fields, at every depth, have
non-empty ASCII alphanumeric names and no `flag` tag: when the paths of the scalar fields,
each written as the concatenation of its names in lower case, are pairwise distinct, the
keys of the baseline that `preConfigRecursiveScan` builds are pairwise distinct. -/
theorem flag_names_distinct (fs : List Field) (hplain : plainFields fs = true)
    (hd : ((scalarPaths fs).map (fun p => strings.ToLower p.flatten)).Nodup) :
    ((preConfigRecursiveScan {} fs []).1.configStructure.map MapItem.Key).Nodup := by
  obtain ⟨l, hpre, h1, _, _⟩ := pre_fields_keys fs {} []
  have h2 := fields_keys_paths fs [] hplain
  simp only [List.map_nil, List.nil_append] at h1 h2
  rw [h1]
  apply List.Nodup.sublist hpre.sublist
  rw [show depthFirstKeys fs [] = (scalarPaths fs).map pathFlagName from h2]
  apply List.Nodup.of_map (fun k => k.filter (fun c => c != '-'))
  rw [List.map_map]
  have : (scalarPaths fs).map ((fun k => k.filter (fun c => c != '-')) ∘ pathFlagName)
      = (scalarPaths fs).map (fun p => strings.ToLower p.flatten) := by
    apply List.map_congr_left
    intro p hp
    exact path_strip p (fields_paths_plain fs hplain p hp).2
  rw [this]
  exact hd

theorem flag_names_distinct_witness :
    ((preConfigRecursiveScan {}
        [Field.mk "FooBar".data {} (Value.int 3),
         Field.mk "Foo".data {} (Value.struct [Field.mk "Baz".data {} (Value.bool true)]),
         Field.mk "Baz".data {} (Value.slice [])] []).1.configStructure.map MapItem.Key).Nodup :=
  flag_names_distinct _ (by decide) (by decide)

/-- C8, counterexample. The fields `FOO` and `Foo` of one struct are distinct, and both get
the flag name `foo`. -/
theorem flag_names_collide :
    "FOO".data ≠ "Foo".data
      ∧ (preConfigRecursiveScan {}
          [Field.mk "FOO".data {} (Value.int 1), Field.mk "Foo".data {} (Value.int 2)]
          []).1.configStructure.map MapItem.Key = ["foo".data, "foo".data]
      ∧ ¬ ((preConfigRecursiveScan {}
          [Field.mk "FOO".data {} (Value.int 1), Field.mk "Foo".data {} (Value.int 2)]
          []).1.configStructure.map MapItem.Key).Nodup := by
  decide

mutual
theorem pre_field_scalars : ∀ (f : Field) (b : Builder) (pfx : Str) (b1 : Builder),
    preConfigField b f pfx = (b1, none) →
    ∃ flags items, b1.Flags = b.Flags ++ flags ∧ b1.configStructure = b.configStructure ++ items
      ∧ List.Forall₂ declaresField (fieldScalars f pfx) flags
      ∧ List.Forall₂ entersField (fieldScalars f pfx) items
  | Field.mk name tag (Value.struct fields), b, pfx, b1 => by
    intro h
    cases hex : IsExported name with
    | false => simp [preConfigField, hex] at h
    | true =>
      simp only [preConfigField, hex, if_true] at h
      simpa only [fieldScalars] using
        pre_fields_scalars fields b (dash (rawFlagName pfx name tag).1) b1 h
  | Field.mk _ _ Value.other, b, pfx, b1 => by
    intro h
    simp only [preConfigField, Prod.mk.injEq, and_true] at h
    subst h
    exact ⟨[], [], by simp [fieldScalars]⟩
  | Field.mk name _ (Value.int64 _), b, pfx, b1 => by
    intro h
    cases hex : IsExported name with
    | false => simp [preConfigField, hex] at h
    | true =>
      simp only [preConfigField, hex, if_true, Prod.mk.injEq, and_true] at h
      subst h
      exact ⟨[], [], by simp [fieldScalars]⟩
  | Field.mk name tag (Value.int _), b, pfx, b1 => by
    intro h
    simp only [preConfigField, Prod.mk.injEq, and_true] at h
    subst h
    exact ⟨_, _, rfl, rfl,
      by simp [fieldScalars, declaresField, entersField, claimedDefault]⟩
  | Field.mk name tag (Value.string _), b, pfx, b1 => by
    intro h
    simp only [preConfigField, Prod.mk.injEq, and_true] at h
    subst h
    exact ⟨_, _, rfl, rfl,
      by simp [fieldScalars, declaresField, entersField, claimedDefault]⟩
  | Field.mk name tag (Value.bool _), b, pfx, b1 => by
    intro h
    simp only [preConfigField, Prod.mk.injEq, and_true] at h
    subst h
    exact ⟨_, _, rfl, rfl,
      by simp [fieldScalars, declaresField, entersField, claimedDefault]⟩
  | Field.mk name tag (Value.slice _), b, pfx, b1 => by
    intro h
    simp only [preConfigField, Prod.mk.injEq, and_true] at h
    subst h
    exact ⟨_, _, rfl, rfl,
      by simp [fieldScalars, declaresField, entersField, claimedDefault]⟩
  | Field.mk name tag (Value.duration _), b, pfx, b1 => by
    intro h
    cases hex : IsExported name with
    | false => simp [preConfigField, hex] at h
    | true =>
      simp only [preConfigField, hex, if_true, Prod.mk.injEq, and_true] at h
      subst h
      exact ⟨_, _, rfl, rfl,
        by simp [fieldScalars, declaresField, entersField, claimedDefault]⟩
  | Field.mk name tag (Value.time _), b, pfx, b1 => by
    intro h
    cases hex : IsExported name with
    | false => simp [preConfigField, hex] at h
    | true =>
      simp only [preConfigField, hex, if_true, Prod.mk.injEq, and_true] at h
      subst h
      exact ⟨_, _, rfl, rfl,
        by simp [fieldScalars, declaresField, entersField, claimedDefault]⟩
theorem pre_fields_scalars : ∀ (fs : List Field) (b : Builder) (pfx : Str) (b1 : Builder),
    preConfigRecursiveScan b fs pfx = (b1, none) →
    ∃ flags items, b1.Flags = b.Flags ++ flags ∧ b1.configStructure = b.configStructure ++ items
      ∧ List.Forall₂ declaresField (scalars fs pfx) flags
      ∧ List.Forall₂ entersField (scalars fs pfx) items
  | [], b, pfx, b1 => by
    intro h
    simp only [preConfigRecursiveScan, Prod.mk.injEq, and_true] at h
    subst h
    exact ⟨[], [], by simp [scalars]⟩
  | f :: fs, b, pfx, b1 => by
    intro h
    cases hpre : preConfigField b f pfx with
    | mk b2 o =>
      simp only [preConfigRecursiveScan, hpre] at h
      cases o with
      | some status => simp at h
      | none =>
        simp only at h
        obtain ⟨flags1, items1, hf1, hc1, hd1, he1⟩ := pre_field_scalars f b pfx b2 hpre
        obtain ⟨flags2, items2, hf2, hc2, hd2, he2⟩ := pre_fields_scalars fs b2 pfx b1 h
        refine ⟨flags1 ++ flags2, items1 ++ items2, ?_, ?_, ?_, ?_⟩
        · rw [hf2, hf1, List.append_assoc]
        · rw [hc2, hc1, List.append_assoc]
        · rw [scalars]
          exact List.rel_append hd1 hd2
        · rw [scalars]
          exact List.rel_append he1 he2
end

/-- C10, as amended. When `preConfigRecursiveScan` runs to its end on a record, the flag
declarations and the baseline entries it has added are, in order, one for each scalar field
of the record, at every depth, under the flag name of the field.  For a field of type
Integer, String, Boolean or Duration the flag declaration carries the value of the field as
its default and the baseline entry holds that value (a duration as its formatted text); for
a StringList field the flag declaration carries no default and the baseline entry is the
empty list, whatever the value of the field. -/
theorem scalar_defaults (b : Builder) (fs : List Field) (pfx : Str) (b1 : Builder)
    (h : preConfigRecursiveScan b fs pfx = (b1, none)) :
    ∃ flags items, b1.Flags = b.Flags ++ flags ∧ b1.configStructure = b.configStructure ++ items
      ∧ List.Forall₂ declaresField (scalars fs pfx) flags
      ∧ List.Forall₂ entersField (scalars fs pfx) items :=
  pre_fields_scalars fs b pfx b1 h

theorem scalar_defaults_witness :
    (preConfigRecursiveScan {} sampleRecord []).2 = none
      ∧ scalars sampleRecord []
        = [("foo-bar".data, Value.int 3), ("server-host".data, Value.string "x".data),
           ("server-since".data, Value.time time.zero),
           ("server-tag".data, Value.slice ["q".data]), ("wait".data, Value.duration 5)]
      ∧ (preConfigRecursiveScan {} sampleRecord []).1.Flags.map (fun fl => (fl.Name, fl.Value))
        = [("foo-bar".data, FlagValue.int 3), ("server-host".data, FlagValue.string "x".data),
           ("server-since".data, FlagValue.string "<time.Time Value>".data),
           ("server-tag".data, FlagValue.stringSlice none),
           ("wait".data, FlagValue.duration 5)]
      ∧ (preConfigRecursiveScan {} sampleRecord []).1.configStructure
        = [⟨"foo-bar".data, ItemValue.int 3⟩, ⟨"server-host".data, ItemValue.string "x".data⟩,
           ⟨"server-since".data, ItemValue.string "<time.Time Value>".data⟩,
           ⟨"server-tag".data, ItemValue.strings []⟩,
           ⟨"wait".data, ItemValue.string "5ns".data⟩]
      ∧ ∃ flags items,
          (preConfigRecursiveScan {} sampleRecord []).1.Flags = [] ++ flags
            ∧ (preConfigRecursiveScan {} sampleRecord []).1.configStructure = [] ++ items
            ∧ List.Forall₂ declaresField (scalars sampleRecord []) flags
            ∧ List.Forall₂ entersField (scalars sampleRecord []) items :=
  ⟨by decide, rfl, by decide, by decide,
   scalar_defaults {} sampleRecord [] (preConfigRecursiveScan {} sampleRecord []).1 (by decide)⟩

/-- C10, counterexample. A StringList field holding `a` is declared with no default and
entered in the baseline as the empty list; a Timestamp field holding 2023-05-01 10:00:00 is
declared and entered with the text `<time.Time Value>`. -/
theorem defaults_dropped :
    preConfigField {} (Field.mk "Tags".data {} (Value.slice ["a".data])) []
        = ({ Flags := [⟨"tags".data, ["TAGS".data], FlagValue.stringSlice none, [], []⟩],
             configStructure := [⟨"tags".data, ItemValue.strings []⟩] }, none)
      ∧ preConfigField {} (Field.mk "Since".data {} (Value.time ⟨2023, 5, 1, 10, 0, 0, 0⟩)) []
        = ({ Flags := [⟨"since".data, ["SINCE".data],
               FlagValue.string "<time.Time Value>".data, [], []⟩],
             configStructure := [⟨"since".data, ItemValue.string "<time.Time Value>".data⟩] },
           none) := by
  decide

theorem join_cons_cons (r r2 : Str) (rs : List Str) :
    strings.Join (r :: r2 :: rs) ['-'] = r ++ '-' :: strings.Join (r2 :: rs) ['-'] := by
  simp [strings.Join, List.intercalate, List.intersperse]

theorem join_single (r : Str) : strings.Join [r] ['-'] = r := by
  simp [strings.Join, List.intercalate, List.intersperse]

theorem hasDoubleHyphen_no_hyphen (s : Str) (h : '-' ∉ s) : hasDoubleHyphen s = false := by
  induction s with
  | nil => rfl
  | cons a rest ih =>
    simp only [List.mem_cons, not_or] at h
    rw [hasDoubleHyphen_cons_ne a rest (fun e => h.1 e.symm)]
    exact ih h.2

set_option maxRecDepth 4000 in
theorem lowerDigit_aux : ∀ n < 128,
    (IsLower (Char.ofNat n) = true ∨ IsDigit (Char.ofNat n) = true) → Char.ofNat n ≠ '-' := by
  decide

theorem lowerDigit_ne_hyphen (c : Char) (h : IsLower c = true ∨ IsDigit c = true) : c ≠ '-' :=
  (ascii_char (fun c => (IsLower c = true ∨ IsDigit c = true) → c ≠ '-') lowerDigit_aux c
    (kebabChar_lt c (h.elim Or.inl (fun h => Or.inr (Or.inl h))))) h

theorem kebab_run (r : Str) (hne : r ≠ []) (hr : ∀ c ∈ r, IsLower c = true ∨ IsDigit c = true) :
    Kebab r := by
  have hno : '-' ∉ r := fun hm => lowerDigit_ne_hyphen _ (hr _ hm) rfl
  refine ⟨hne, fun c hc => (hr c hc).elim Or.inl (fun h => Or.inr (Or.inl h)), ?_, ?_,
    hasDoubleHyphen_no_hyphen r hno⟩
  · intro hh
    exact hno (List.mem_of_mem_head? hh)
  · intro hl
    exact hno (List.mem_of_mem_getLast? hl)

theorem kebab_runs (runs : List Str) (hne : runs ≠ [])
    (hruns : ∀ r ∈ runs, r ≠ [] ∧ ∀ c ∈ r, IsLower c = true ∨ IsDigit c = true) :
    Kebab (strings.Join runs ['-']) := by
  induction runs with
  | nil => exact absurd rfl hne
  | cons r rs ih =>
    have hr := hruns r (List.mem_cons_self _ _)
    cases rs with
    | nil =>
      rw [join_single]
      exact kebab_run r hr.1 hr.2
    | cons r2 rs2 =>
      rw [join_cons_cons]
      exact kebab_join _ _ (kebab_run r hr.1 hr.2)
        (ih (by simp) (fun q hq => hruns q (List.mem_cons_of_mem _ hq)))

/-- C16. The function `dash` is the identity on kebab-case text: for non-empty runs of
lowercase ASCII letters and digits joined by single hyphens, `dash` returns the text
unchanged; hence `dash (dash s) = dash s` for every ASCII alphanumeric identifier `s`. -/
theorem dash_kebab_identity (runs : List Str)
    (hruns : ∀ r ∈ runs, r ≠ [] ∧ ∀ c ∈ r, IsLower c = true ∨ IsDigit c = true) :
    dash (strings.Join runs ['-']) = strings.Join runs ['-']
      ∧ ∀ s : Str, s.all isAlnum = true → dash (dash s) = dash s := by
  refine ⟨?_, dash_dash⟩
  by_cases hne : runs = []
  · subst hne
    rfl
  · obtain ⟨_, h2, h3, _, h5⟩ := kebab_runs runs hne hruns
    exact dash_fixed _ (fun c hc => kebabChar_not_upper c (h2 c hc)) h3 h5

theorem dash_kebab_identity_witness :
    dash "http-server2-host".data = "http-server2-host".data :=
  (dash_kebab_identity ["http".data, "server2".data, "host".data] (by decide)).1

/-- C17, the code on text with hyphens. Three adjacent hyphens are left as two: `ReplaceAll`
makes one pass, so `a--Bc` (raw `a---bc`) and `a---b` come out as `a--bc` and `a--b`, with
two adjacent hyphens; so does the flag name of a field with the alias `a--Bc`. -/
theorem dash_leaves_double_hyphen :
    dash "a--Bc".data = "a--bc".data
      ∧ ['-', '-'] <:+: dash "a--Bc".data
      ∧ dash "a---b".data = "a--b".data
      ∧ ['-', '-'] <:+: dash "a---b".data
      ∧ (preConfigField {} (Field.mk "Name".data { flag := some "a--Bc".data } (Value.int 0))
          []).1.Flags.map Flag.Name = ["a--bc".data] := by
  refine ⟨by decide, ?_, by decide, ?_, by decide⟩
  · rw [← hasDoubleHyphen_iff]
    decide
  · rw [← hasDoubleHyphen_iff]
    decide

theorem replaceAll_dd_strip_le (n : Nat) : ∀ w : Str, w.length ≤ n →
    (strings.ReplaceAll w ['-', '-'] ['-']).filter (fun c => c != '-')
      = w.filter (fun c => c != '-') := by
  induction n with
  | zero =>
    intro w hw
    have : w = [] := List.length_eq_zero.mp (Nat.le_zero.mp hw)
    subst this
    rfl
  | succ n ih =>
    intro w hw
    cases w with
    | nil => rfl
    | cons a rest =>
      cases rest with
      | nil => rw [replaceAll_dd_single]
      | cons b rest2 =>
        simp only [List.length_cons] at hw
        by_cases h : a = '-' ∧ b = '-'
        · obtain ⟨ha, hb⟩ := h
          subst ha
          subst hb
          rw [replaceAll_dd_hit]
          have := ih rest2 (by omega)
          simp [this]
        · rw [replaceAll_dd_miss a b rest2 h]
          have := ih (b :: rest2) (by simp only [List.length_cons]; omega)
          simp only [List.filter_cons, this]

theorem replaceAll_dd_strip (w : Str) :
    (strings.ReplaceAll w ['-', '-'] ['-']).filter (fun c => c != '-')
      = w.filter (fun c => c != '-') :=
  replaceAll_dd_strip_le w.length w (Nat.le_refl _)

theorem replaceAll_dd_head (w : Str) (h : w.head? ≠ some '-') :
    (strings.ReplaceAll w ['-', '-'] ['-']).head? ≠ some '-' := by
  cases w with
  | nil => simp [replaceAll_dd_nil]
  | cons a rest =>
    have ha : a ≠ '-' := by simpa using h
    cases rest with
    | nil => simpa [replaceAll_dd_single] using ha
    | cons b rest2 =>
      rw [replaceAll_dd_miss a b rest2 (fun hc => ha hc.1)]
      simpa using ha

theorem split_flatten (s : Str) (sep : Char) :
    (strings.Split s sep).flatten = s.filter (fun c => c != sep) := by
  induction s with
  | nil => rfl
  | cons c cs ih =>
    simp only [strings.Split]
    split
    · rename_i h
      subst h
      simp [ih]
    · rename_i h
      cases hsp : strings.Split cs sep with
      | nil => exact absurd hsp (split_ne_nil cs sep)
      | cons p ps =>
        rw [hsp] at ih
        simp only [List.flatten_cons] at ih
        simp [h, ← ih]

theorem dashParts_strip (parts : List Str) (acc : Str) (h : ∀ q ∈ parts, '-' ∉ q) :
    (dashParts parts acc).filter (fun c => c != '-')
      = acc.filter (fun c => c != '-') ++ parts.flatten.map ToLower := by
  induction parts generalizing acc with
  | nil => simp [dashParts]
  | cons p ps ih =>
    simp only [dashParts]
    rw [ih _ (fun q hq => h q (List.mem_cons_of_mem _ hq)), dashSegment_eq, List.filter_append,
      segOut_strip _ _ _ (h p (List.mem_cons_self _ _))]
    split <;> simp

theorem dashParts_extends (parts : List Str) (acc : Str) :
    ∃ t, dashParts parts acc = acc ++ t := by
  induction parts generalizing acc with
  | nil => exact ⟨[], by simp [dashParts]⟩
  | cons p ps ih =>
    simp only [dashParts]
    obtain ⟨t, ht⟩ := ih (dashSegment rune0 p (if acc.length > 0 then acc ++ ['-'] else acc))
    rw [ht, dashSegment_eq]
    split
    · exact ⟨['-'] ++ (segOut (acc ++ ['-']).isEmpty rune0 p ++ t), by
        simp only [List.append_assoc]⟩
    · exact ⟨segOut acc.isEmpty rune0 p ++ t, by simp only [List.append_assoc]⟩

theorem dashParts_head (parts : List Str) (h : ∀ q ∈ parts, '-' ∉ q) :
    (dashParts parts []).head? ≠ some '-' := by
  induction parts with
  | nil => simp [dashParts]
  | cons p ps ih =>
    have hp := h p (List.mem_cons_self _ _)
    simp only [dashParts, List.length_nil, gt_iff_lt, lt_self_iff_false, if_false, dashSegment_eq,
      List.nil_append, List.isEmpty_nil]
    cases p with
    | nil =>
      simp only [segOut]
      exact ih (fun q hq => h q (List.mem_cons_of_mem _ hq))
    | cons a rest =>
      obtain ⟨t, ht⟩ := dashParts_extends ps (segOut true rune0 (a :: rest))
      rw [ht]
      have hh := segOut_head rune0 (a :: rest) hp
      have hne : segOut true rune0 (a :: rest) ≠ [] := by simp [segOut]
      cases hs : segOut true rune0 (a :: rest) with
      | nil => exact absurd hs hne
      | cons x xs =>
        rw [hs] at hh
        simpa using hh

/-- C18. On every ASCII text `dash` only lower-cases characters and adds or removes hyphens:
the text it returns, with all hyphens deleted, is the lower-cased argument with its hyphens
deleted, and the text it returns never begins with a hyphen. -/
theorem dash_keeps_characters (s : Str) (_hs : ∀ c ∈ s, c.toNat < 128) :
    (dash s).filter (fun c => c != '-') = (strings.ToLower s).filter (fun c => c != '-')
      ∧ (dash s).head? ≠ some '-' := by
  have hparts : ∀ q ∈ strings.Split s '-', '-' ∉ q :=
    fun q hq hm => (split_mem s '-' q hq '-' hm).2 rfl
  refine ⟨?_, ?_⟩
  · rw [dash, replaceAll_dd_strip, dashParts_strip _ _ hparts, split_flatten]
    simp only [List.filter_nil, List.nil_append, strings.ToLower, List.filter_map]
    congr 1
    apply List.filter_congr
    intro c _
    by_cases hc : c = '-'
    · subst hc
      decide
    · have h1 : (c != '-') = true := by simpa using hc
      have h2 : (ToLower c != '-') = true := by simpa using toLower_ne_hyphen c hc
      simp only [Function.comp, h1, h2]
  · exact replaceAll_dd_head _ (dashParts_head _ hparts)

theorem dash_keeps_characters_witness :
    (dash "-my--HTTPServer-".data).filter (fun c => c != '-') = "myhttpserver".data
      ∧ (dash "-my--HTTPServer-".data).head? ≠ some '-' :=
  have h := dash_keeps_characters "-my--HTTPServer-".data (by decide)
  ⟨h.1.trans (by decide), h.2⟩

/-- C11, the code on the implicit path. With `config-file` unset and a `config.json` that
exists and does not parse, `c.Set` has put the default path into the flag before the test
`len(c.String("config-file")) > 0`, so the test holds and the process exits with status 1,
as it does when the same path is given explicitly. -/
theorem implicit_config_failure_exits :
    loadConfigFile brokenDefaultFile unsetContext
        = ([Effect.Stderr "Error: invalid character\n".data], Except.error 1)
      ∧ (∀ clock : Nat → Str, postConfig brokenDefaultFile clock (some sampleRecord) unsetContext
        = ([Effect.Stderr "Error: invalid character\n".data], Except.error 1))
      ∧ loadConfigFile brokenDefaultFile
          { unsetContext with String := fun _ => "config.json".data }
        = ([Effect.Stderr "Error: invalid character\n".data], Except.error 1) := by
  refine ⟨rfl, fun _ => rfl, rfl⟩

/-- C12. After binding, the end of `postConfig` is decided by the two booleans alone: with
`show-config` set the flat configuration is printed and the process exits with status 0,
no file written, whatever `dump-config` is; otherwise with `dump-config` set the flat
configuration is written to the config-file path and the process exits with status 0; with
both unset `postConfig` returns and execution goes on. -/
theorem show_dump_short_circuit (w : ConfigFiles) (clock : Nat → Str) (fields : List Field)
    (c c1 : Context) (configFile : Str) (st : PostState) (fields1 : List Field)
    (hload : loadConfigFile w c = ([], Except.ok (c1, configFile)))
    (hscan : postConfigRecursiveScan c1 clock {} fields [] = Except.ok (st, fields1)) :
    postConfig w clock (some fields) c
      = (match c1.Bool "show-config".data, c1.Bool "dump-config".data with
        | true, _ => ([Effect.Println (w.MarshalIndent st.flatConfig)], Except.error 0)
        | false, true =>
          ([Effect.WriteFile configFile (w.MarshalIndent st.flatConfig) 420], Except.error 0)
        | false, false => ([], Except.ok (some (fields1, st.flatConfig)))) := by
  simp only [postConfig, hload, hscan, shortCircuit]
  cases c1.Bool "show-config".data <;> cases c1.Bool "dump-config".data <;> rfl

theorem show_dump_short_circuit_witness :
    postConfig noConfigFile (fun _ => "2024-01-02".data) (some sampleRecord) sampleContext
      = ([Effect.Println "{}".data], Except.error 0) :=
  (show_dump_short_circuit noConfigFile (fun _ => "2024-01-02".data) sampleRecord sampleContext
    (sampleContext.Set "config-file".data "10:00:00".data) "10:00:00".data
    { flatConfig :=
        [⟨"foo-bar".data, ItemValue.int 7⟩,
         ⟨"server-host".data, ItemValue.string "10:00:00".data⟩,
         ⟨"server-since".data, ItemValue.string "10:00:00".data⟩,
         ⟨"server-tag".data, ItemValue.string "a,b,c".data⟩,
         ⟨"wait".data, ItemValue.string "1m30s".data⟩],
      timeFields := 1 }
    [Field.mk "FooBar".data {} (Value.int 7),
     Field.mk "Server".data {}
       (Value.struct
         [Field.mk "Host".data {} (Value.string "10:00:00".data),
          Field.mk "Since".data {} (Value.time ⟨2024, 1, 2, 10, 0, 0, 0⟩),
          Field.mk "Tags".data { flag := some "tag, t".data }
            (Value.slice ["a".data, "b".data, "c".data])]),
     Field.mk "Wait".data {} (Value.duration 90000000000)]
    rfl rfl).trans rfl

theorem windows.queries_append (a b : windows.Trace) :
    windows.queries (a ++ b) = windows.queries a + windows.queries b := by
  simp [windows.queries]

theorem windows.polls_step (timeout now : Nat) (h : ¬ timeout < now) :
    windows.polls timeout (now + 300) + 1 = windows.polls timeout now := by
  unfold windows.polls
  rw [if_neg h]
  split
  · have : (timeout - now) / 300 = 0 := by
      apply Nat.div_eq_of_lt
      omega
    omega
  · have : timeout - now = (timeout - (now + 300)) + 300 := by omega
    rw [this, Nat.add_div_right _ (by decide : 0 < 300)]

theorem windows.controlLoop_bounded (m : windows.Manager) (target : windows.State)
    (timeout : Nat) (hq : ∀ t, ∃ st, m.Query t = Except.ok st) :
    ∀ (fuel : Nat) (status : windows.State) (r : windows.Run),
      windows.polls timeout r.now < fuel →
      ∃ new now1 err,
        windows.controlLoop m target timeout fuel status r
            = some ({ trace := r.trace ++ new, now := now1 }, err)
          ∧ windows.queries new ≤ windows.polls timeout r.now
          ∧ (err = none ↔ (status = target ∨ windows.Event.Query (Except.ok target) ∈ new))
          ∧ (err ≠ none → err = some (windows.timeoutError target)) := by
  intro fuel
  induction fuel with
  | zero => intro status r h; omega
  | succ fuel ih =>
    intro status r hfuel
    by_cases hs : status = target
    · refine ⟨[], r.now, none, ?_, ?_, ?_, ?_⟩
      · simp [windows.controlLoop, hs]
      · simp [windows.queries]
      · simp [hs]
      · simp
    · by_cases ht : timeout < r.now
      · refine ⟨[], r.now, some (windows.timeoutError target), ?_, ?_, ?_, ?_⟩
        · simp only [windows.controlLoop, hs, if_false, ht, if_true, List.append_nil,
            windows.timeoutError]
        · simp [windows.queries]
        · simp [hs]
        · intro _; rfl
      · obtain ⟨st, hst⟩ := hq (r.sleep 300).trace
        have hstep := windows.polls_step timeout r.now ht
        obtain ⟨new, now1, err, h1, h2, h3, h4⟩ :=
          ih st ((r.sleep 300).step (windows.Event.Query (Except.ok st)))
            (by simp only [windows.Run.step, windows.Run.sleep]; omega)
        refine ⟨windows.Event.Sleep 300 :: windows.Event.Query (Except.ok st) :: new, now1, err,
          ?_, ?_, ?_, h4⟩
        · simp only [windows.controlLoop, hs, if_false, ht, hst, h1]
          simp [windows.Run.step, windows.Run.sleep]
        · have hc : windows.queries
              (windows.Event.Sleep 300 :: windows.Event.Query (Except.ok st) :: new)
              = windows.queries new + 1 := by
            simp [windows.queries]
          simp only [windows.Run.step, windows.Run.sleep] at h2
          omega
        · rw [h3]
          simp only [hs, false_or, List.mem_cons, reduceCtorEq, windows.Event.Query.injEq,
            Except.ok.injEq]
          constructor
          · rintro (h | h)
            · exact Or.inl h.symm
            · exact Or.inr h
          · rintro (h | h)
            · exact Or.inl h.symm
            · exact Or.inr h

/-- C14. The polling of `controlService` is bounded. With the clock moving 300 ms in each
poll, a service manager that accepts the connection and the control request and answers
every status query with a state: with 35 passes of fuel or more the function returns; it
issues at most 34 status queries; it returns no error exactly when the answer to the
control request or to one of these queries is the target state, and otherwise its error
is the timeout error. -/
theorem control_polling_bounded (m : windows.Manager) (name : Str) (c : windows.Cmd)
    (target s0 : windows.State) (r : windows.Run) (fuel : Nat) (hfuel : 35 ≤ fuel)
    (hconn : ∀ t, m.Connect t = none) (hopen : ∀ t, m.OpenService t name = none)
    (hctl : ∀ t, m.Control t c = Except.ok s0) (hq : ∀ t, ∃ st, m.Query t = Except.ok st) :
    ∃ new now1 err,
      windows.controlService m fuel name c target r
          = some ({ trace := r.trace ++ new, now := now1 }, err)
        ∧ windows.queries new ≤ 34
        ∧ (err = none ↔ (s0 = target ∨ windows.Event.Query (Except.ok target) ∈ new))
        ∧ (err ≠ none → err = some (windows.timeoutError target)) := by
  have hp : windows.polls (r.now + 10000) r.now = 34 := by
    unfold windows.polls
    rw [if_neg (by omega)]
    have : r.now + 10000 - r.now = 10000 := by omega
    rw [this]
  obtain ⟨new, now1, err, h1, h2, h3, h4⟩ :=
    windows.controlLoop_bounded m target (r.now + 10000) hq fuel s0
      (((r.step (windows.Event.Connect none)).step (windows.Event.OpenService name none)).step
        (windows.Event.Control c (Except.ok s0)))
      (by simp only [windows.Run.step]; omega)
  simp only [windows.Run.step] at h1 h2
  rw [hp] at h2
  refine ⟨windows.Event.Connect none :: windows.Event.OpenService name none
      :: windows.Event.Control c (Except.ok s0) :: (new ++ [windows.Event.Close,
        windows.Event.Disconnect]), now1, err, ?_, ?_, ?_, h4⟩
  · simp only [windows.controlService, hconn, hopen, hctl, windows.Run.step, h1]
    simp
  · have : windows.queries (windows.Event.Connect none :: windows.Event.OpenService name none
        :: windows.Event.Control c (Except.ok s0) :: (new ++ [windows.Event.Close,
          windows.Event.Disconnect])) = windows.queries new := by
      simp [windows.queries]
    omega
  · rw [h3]
    simp

theorem control_polling_bounded_witness :
    (∃ new now1 err,
      windows.controlService (windows.runningAfter 33) 35 "svc".data windows.Cmd.Continue
          windows.State.Running {} = some ({ trace := [] ++ new, now := now1 }, err)
        ∧ windows.queries new ≤ 34
        ∧ (err = none ↔ (windows.State.ContinuePending = windows.State.Running
            ∨ windows.Event.Query (Except.ok windows.State.Running) ∈ new))
        ∧ (err ≠ none → err = some (windows.timeoutError windows.State.Running)))
      ∧ (windows.controlService (windows.runningAfter 33) 35 "svc".data windows.Cmd.Continue
          windows.State.Running {}).map (fun x => (windows.queries x.1.trace, x.1.now, x.2))
        = some (34, 10200, none)
      ∧ (windows.controlService (windows.runningAfter 34) 35 "svc".data windows.Cmd.Continue
          windows.State.Running {}).map (fun x => (windows.queries x.1.trace, x.1.now, x.2))
        = some (34, 10200, some "timeout waiting for service to go to state=4".data) :=
  ⟨control_polling_bounded (windows.runningAfter 33) "svc".data windows.Cmd.Continue
      windows.State.Running windows.State.ContinuePending {} 35 (by decide) (fun _ => rfl)
      (fun _ => rfl) (fun _ => rfl) (fun _ => ⟨_, rfl⟩),
    by decide, by decide⟩

/-- C13, the code on a service that already runs. For root and an installed service that
`systemctl is-active` reports active, `startService` returns the error `already started`
and the command `start` returns it: no benign outcome, where the command `stop` on a
stopped service logs `service was already stopped` and exits with status 0. -/
theorem start_while_running_fails :
    linux.start linux.runningHost linux.sampleService
        = ([linux.Event.Getuid 0,
            linux.Event.Stat "/etc/systemd/system/my-app.service".data (Except.ok (0, 0)),
            linux.Event.Systemctl "is-active".data "my-app".data "active\n".data none,
            linux.Event.Systemctl "is-enabled".data "my-app".data "enabled\n".data none],
           Result.Error "already started".data)
      ∧ linux.stop linux.stoppedHost linux.sampleService
        = ([linux.Event.Getuid 0,
            linux.Event.Stat "/etc/systemd/system/my-app.service".data (Except.ok (0, 0)),
            linux.Event.Systemctl "stop".data "my-app".data [] none,
            linux.Event.Println "service was already stopped".data],
           Result.Exit 0) := by
  decide

theorem linux.command_cases (cmd : Str × (linux.Host → linux.Service → linux.Trace × Result))
    (h : cmd ∈ linux.commands) :
    cmd.2 = linux.install ∨ cmd.2 = linux.remove ∨ cmd.2 = linux.enable
      ∨ cmd.2 = linux.disable ∨ cmd.2 = linux.start ∨ cmd.2 = linux.stop
      ∨ cmd.2 = linux.status := by
  simp only [linux.commands, List.mem_cons, List.mem_singleton, List.not_mem_nil, or_false] at h
  rcases h with h | h | h | h | h | h | h <;> subst h <;> simp

theorem windows.controlService_denied (m : windows.Manager) (fuel : Nat) (name : Str)
    (c : windows.Cmd) (target : windows.State) (r : windows.Run) (err : Str)
    (hd : ∀ t, m.Connect t = some err) :
    windows.controlService m fuel name c target r
      = some (r.step (windows.Event.Connect (some err)), some err) := by
  simp only [windows.controlService, hd]

theorem windows.startService_denied (m : windows.Manager) (name : Str) (r : windows.Run)
    (err : Str) (hd : ∀ t, m.Connect t = some err) :
    windows.startService m name r = (r.step (windows.Event.Connect (some err)), some err) := by
  simp only [windows.startService, hd]

theorem windows.exePath_quiet (m : windows.Manager) (r : windows.Run)
    (hr : ∀ e ∈ r.trace, e.usesService = false) :
    ∀ e ∈ (windows.exePath m r).1.trace, e.usesService = false := by
  have step : ∀ (r : windows.Run) (e : windows.Event), (∀ x ∈ r.trace, x.usesService = false) →
      e.usesService = false → ∀ x ∈ (r.step e).trace, x.usesService = false := by
    intro r e h1 h2 x hx
    simp only [windows.Run.step, List.mem_append, List.mem_singleton] at hx
    rcases hx with hx | hx
    · exact h1 x hx
    · rw [hx]; exact h2
  have h1 := step r (windows.Event.Abs m.Args0 (m.Abs r.trace m.Args0)) hr rfl
  unfold windows.exePath
  cases ha : m.Abs r.trace m.Args0 with
  | error e => simpa only [ha] using h1
  | ok p =>
    rw [ha] at h1
    have h2 := step _ (windows.Event.Stat p
      (m.Stat (r.step (windows.Event.Abs m.Args0 (Except.ok p))).trace p)) h1 rfl
    simp only
    cases hs : m.Stat (r.step (windows.Event.Abs m.Args0 (Except.ok p))).trace p with
    | ok isDir =>
      rw [hs] at h2
      cases isDir with
      | false => simpa using h2
      | true =>
        simp only [Bool.not_true, Bool.false_eq_true, if_false]
        split
        · have h3 := step _ (windows.Event.Stat (p ++ ".exe".data)
            (m.Stat ((r.step (windows.Event.Abs m.Args0 (Except.ok p))).step
              (windows.Event.Stat p (Except.ok true))).trace (p ++ ".exe".data))) h2 rfl
          split
          · split <;> exact h3
          · exact h3
        · exact h2
    | error e =>
      rw [hs] at h2
      simp only
      split
      · have h3 := step _ (windows.Event.Stat (p ++ ".exe".data)
          (m.Stat ((r.step (windows.Event.Abs m.Args0 (Except.ok p))).step
            (windows.Event.Stat p (Except.error e))).trace (p ++ ".exe".data))) h2 rfl
        split
        · split <;> exact h3
        · exact h3
      · exact h2

theorem windows.commands_denied (m : windows.Manager) (name description err : Str)
    (hd : ∀ t, m.Connect t = some err) (fuel : Nat) :
    ∀ cmd ∈ windows.commands name description,
      ∃ r msg, cmd.2 m fuel = some (r, Result.Error msg)
        ∧ ∀ e ∈ r.trace, e.usesService = false := by
  intro cmd hcmd
  have hc0 : ∀ e ∈ (({} : windows.Run).step (windows.Event.Connect (some err))).trace,
      e.usesService = false := by
    intro e he
    simp only [windows.Run.step, List.nil_append, List.mem_singleton] at he
    rw [he]; rfl
  have step : ∀ (r : windows.Run) (e : windows.Event), (∀ x ∈ r.trace, x.usesService = false) →
      e.usesService = false → ∀ x ∈ (r.step e).trace, x.usesService = false := by
    intro r e h1 h2 x hx
    simp only [windows.Run.step, List.mem_append, List.mem_singleton] at hx
    rcases hx with hx | hx
    · exact h1 x hx
    · rw [hx]; exact h2
  simp only [windows.commands, List.mem_cons, List.mem_singleton, List.not_mem_nil,
    or_false] at hcmd
  rcases hcmd with h | h | h | h | h | h <;> subst h
  · simp only [windows.install, windows.controlService_denied m fuel name _ _ _ err hd]
    have hq := windows.exePath_quiet m _ hc0
    cases he : (windows.exePath m
        (({} : windows.Run).step (windows.Event.Connect (some err)))).2 with
    | error e2 => exact ⟨_, _, rfl, hq⟩
    | ok p =>
      simp only [hd]
      exact ⟨_, _, rfl, step _ _ hq rfl⟩
  · simp only [windows.remove, windows.controlService_denied m fuel name _ _ _ err hd, hd]
    exact ⟨_, _, rfl, step _ _ hc0 rfl⟩
  · simp only [windows.start, windows.controlService_denied m fuel name _ _ _ err hd,
      windows.startService_denied m name _ err hd]
    exact ⟨_, _, rfl, step _ _ hc0 rfl⟩
  · simp only [windows.stop, windows.controlService_denied m fuel name _ _ _ err hd]
    exact ⟨_, _, rfl, hc0⟩
  · simp only [windows.pause, windows.controlService_denied m fuel name _ _ _ err hd]
    exact ⟨_, _, rfl, hc0⟩
  · simp only [windows.continueCommand, windows.controlService_denied m fuel name _ _ _ err hd]
    exact ⟨_, _, rfl, hc0⟩

/-- C15, as amended. Every lifecycle command that `Daemonize` registers on Linux (install,
remove, enable, disable, start, stop, status), run by a caller who is not root, returns an
error after reading the uid of the caller and nothing else: no request to the service
manager is issued and no service file is read, written or removed.  The commands registered
on Windows (install, remove, start, stop, pause, continue) test no privilege themselves:
when the service manager refuses the connection of the caller, each returns an error
without a step on any service registration or on the event log. -/
theorem commands_need_privilege (h : linux.Host) (sv : linux.Service) (hroot : h.Getuid ≠ 0)
    (m : windows.Manager) (name description err : Str) (hd : ∀ t, m.Connect t = some err)
    (fuel : Nat) :
    (linux.commands.map Prod.fst
        = ["install".data, "remove".data, "enable".data, "disable".data, "start".data,
           "stop".data, "status".data]
      ∧ ∀ cmd ∈ linux.commands,
          (∃ msg, cmd.2 h sv = ([linux.Event.Getuid h.Getuid], Result.Error msg))
            ∧ ∀ e ∈ (cmd.2 h sv).1, e.touchesSystem = false)
    ∧ ((windows.commands name description).map Prod.fst
        = ["install".data, "remove".data, "start".data, "stop".data, "pause".data,
           "continue".data]
      ∧ ∀ cmd ∈ windows.commands name description,
          ∃ r msg, cmd.2 m fuel = some (r, Result.Error msg)
            ∧ ∀ e ∈ r.trace, e.usesService = false) := by
  refine ⟨⟨by decide, ?_⟩, ⟨rfl, windows.commands_denied m name description err hd fuel⟩⟩
  intro cmd hcmd
  have hne : (h.Getuid != 0) = true := by simpa using hroot
  have key : ∃ msg, cmd.2 h sv = ([linux.Event.Getuid h.Getuid], Result.Error msg) := by
    rcases linux.command_cases cmd hcmd with e | e | e | e | e | e | e <;> rw [e]
    · exact ⟨_, by simp only [linux.install, hne, if_true]; rfl⟩
    · exact ⟨_, by simp only [linux.remove, hne, if_true]; rfl⟩
    · exact ⟨_, by simp only [linux.enable, hne, if_true]; rfl⟩
    · exact ⟨_, by simp only [linux.disable, hne, if_true]; rfl⟩
    · exact ⟨_, by simp only [linux.start, hne, if_true]; rfl⟩
    · exact ⟨_, by simp only [linux.stop, hne, if_true]; rfl⟩
    · exact ⟨_, by simp only [linux.status, hne, if_true]; rfl⟩
  refine ⟨key, ?_⟩
  obtain ⟨msg, hmsg⟩ := key
  rw [hmsg]
  intro e he
  simp only [List.mem_singleton] at he
  subst he
  rfl

theorem commands_need_privilege_witness :
    (∀ cmd ∈ linux.commands,
      (∃ msg, cmd.2 { linux.runningHost with Getuid := 1000 } linux.sampleService
          = ([linux.Event.Getuid 1000], Result.Error msg))
        ∧ ∀ e ∈ (cmd.2 { linux.runningHost with Getuid := 1000 } linux.sampleService).1,
            e.touchesSystem = false)
      ∧ ∀ cmd ∈ windows.commands "svc".data "demo".data,
          ∃ r msg, cmd.2 windows.deniedManager 35 = some (r, Result.Error msg)
            ∧ ∀ e ∈ r.trace, e.usesService = false :=
  have w := commands_need_privilege { linux.runningHost with Getuid := 1000 }
    linux.sampleService (by decide) windows.deniedManager "svc".data "demo".data
    "Access is denied.".data (fun _ => rfl) 35
  ⟨w.1.2, w.2.2⟩

/-- C15, counterexample. The commands that `Daemonize` registers on Windows make no test of
privilege: the first step of `stop` (and of `pause`, `continue`, `start`, `remove`,
`install`) is the request `mgr.Connect` to the service manager, and for a caller without
elevated privilege the error returned is the refusal of the service manager. -/
theorem windows_commands_ask_manager_first :
    windows.stop windows.deniedManager 35 "svc".data
        = some ({ trace := [windows.Event.Connect (some "Access is denied.".data)], now := 0 },
            Result.Error "Access is denied.".data)
      ∧ (windows.Event.Connect (some "Access is denied.".data)).touchesSystem = true
      ∧ (windows.pause windows.deniedManager 35 "svc".data).map (fun x => x.1.trace.head?)
        = some (some (windows.Event.Connect (some "Access is denied.".data)))
      ∧ (windows.continueCommand windows.deniedManager 35 "svc".data).map
          (fun x => x.1.trace.head?)
        = some (some (windows.Event.Connect (some "Access is denied.".data)))
      ∧ (windows.start windows.deniedManager 35 "svc".data).map (fun x => x.1.trace.head?)
        = some (some (windows.Event.Connect (some "Access is denied.".data)))
      ∧ (windows.remove windows.deniedManager 35 "svc".data).map (fun x => x.1.trace.head?)
        = some (some (windows.Event.Connect (some "Access is denied.".data)))
      ∧ (windows.install windows.deniedManager 35 "svc".data "demo".data).map
          (fun x => x.1.trace.head?)
        = some (some (windows.Event.Connect (some "Access is denied.".data))) := by
  decide

end GoCli
